import Mathlib

/-!
# Dispatch, reorg engine and balance task of the block indexer

A shallow embedding of `task/balance.go` and `dispatch/dispatch.go`.

* `big.Int` values are `Int`; `uint64` values are `Nat`, reduced modulo `2^64`
  wherever the source narrows or can wrap.
* A Go `map` is an association list with unique keys (`GoMap`); iterating it visits the
  entries in list order.  The results proved below depend only on the entries, not on
  their order (`BalanceTask.writeBack_order_irrelevant`).
* The `account_balance` table is a finite-support function from `(account, assetId)` to a
  row.  An error return is `Except.error`; a Go runtime panic is reported as
  `Err.RuntimePanic`.
-/

namespace Browser

/-! ## Machine integers -/

/-- Width of a Go `uint64`. -/
def twoPow64 : Nat := 18446744073709551616

/-- Reduction of a natural number into the `uint64` range. -/
def uint64 (n : Nat) : Nat := n % twoPow64

/-- Go's `(*big.Int).Uint64()`: the low 64 bits of the absolute value. -/
def bigUint64 (x : Int) : Nat := x.natAbs % twoPow64

/-! ## Errors -/

/-- Error values that the modelled code can return or panic with. -/
inductive Err
  | ErrNoRows
  | BalanceNotEnough
  | ParsePayload
  | AssetInfo
  | DuplicateEntry
  | Rpc
  | RuntimePanic
  deriving DecidableEq, Repr

/-! ## Block data (`types` package, as used by the two source files) -/

/-- Top-level action of a transaction (`types.RPCAction`). -/
structure Action where
  ActType : Nat
  From : String
  To : String
  AssetID : Nat
  Amount : Int
  Payload : List Nat
  deriving DecidableEq, Repr

/-- Per-action part of a receipt. -/
structure ActionResult where
  Status : Nat
  GasUsed : Nat
  deriving DecidableEq, Repr

/-- Receipt of one transaction. -/
structure Receipt where
  ActionResults : List ActionResult
  deriving DecidableEq, Repr

/-- Transaction: gas asset, gas price (a `*big.Int`) and its actions. -/
structure Tx where
  GasAssetID : Nat
  GasPrice : Int
  RPCActions : List Action
  deriving DecidableEq, Repr

/-- One internal log; only its action is read. -/
structure InternalLog where
  Action : Action
  deriving DecidableEq, Repr

/-- Internal actions triggered by one top-level action. -/
structure InternalAction where
  InternalLogs : List InternalLog
  deriving DecidableEq, Repr

/-- Internal actions of one transaction, indexed like its actions. -/
structure DetailTx where
  InternalActions : List InternalAction
  deriving DecidableEq, Repr

/-- Block header fields that the code reads. -/
structure Header where
  Number : Nat
  Time : Nat
  deriving DecidableEq, Repr

/-- Block: header, hashes and transactions. -/
structure Block where
  Head : Header
  Hash : String
  ParentHash : String
  Txs : List Tx
  deriving DecidableEq, Repr

/-- Block together with its receipts and (optional) internal-action details. -/
structure BlockAndResult where
  Block : Block
  Receipts : List Receipt
  DetailTxs : List DetailTx
  deriving DecidableEq, Repr

/-- Height as the code reads it: `data.Block.Head.Number.Uint64()`. -/
def BlockAndResult.height (data : BlockAndResult) : Nat := uint64 data.Block.Head.Number

/-- Payload of an issue-asset action after parsing (`types.IssueAssetObject`). -/
structure IssueAssetObject where
  AssetName : String
  Owner : String
  Amount : Int
  deriving DecidableEq, Repr

/-- Configuration constants and external collaborators read by the balance task:
`config.Chain.ChainFeeName`, `types.ReceiptStatusSuccessful`, `types.IssueAsset`,
`parsePayload` and `client.GetAssetInfoByName` (returning the asset id). -/
structure Env where
  ChainFeeName : String
  ReceiptStatusSuccessful : Nat
  IssueAsset : Nat
  parsePayload : Action → Except Err IssueAssetObject
  GetAssetInfoByName : String → Except Err Nat

/-! ## The `account_balance` table -/

/-- One `account_balance` row. -/
structure Row where
  balance : Int
  updatedHeight : Nat
  updatedTime : Nat
  deriving DecidableEq, Repr

/-- The `account_balance` table, keyed by `(account, assetId)`. -/
abbrev Store := String → Nat → Option Row

/-- Store with no rows. -/
def Store.empty : Store := fun _ _ => none

/-- Store with the row of one key replaced. -/
def Store.set (s : Store) (name : String) (assetId : Nat) (r : Row) : Store :=
  fun n k => if n = name ∧ k = assetId then some r else s n k

/-- Balance held under a key, reading an absent row as zero. -/
def balanceOf (s : Store) (name : String) (assetId : Nat) : Int :=
  match s name assetId with
  | some r => r.balance
  | none => 0

/-- Modelled from the spec: `db.GetAccountBalance`, which is not among the sources.
It reads the balance of the row and reports `sql.ErrNoRows` when there is none. -/
def GetAccountBalance (s : Store) (name : String) (assetId : Nat) : Except Err Int :=
  match s name assetId with
  | some r => .ok r.balance
  | none => .error .ErrNoRows

/-- Modelled from the spec: `db.UpdateAccountBalance`, which is not among the sources.
It rewrites balance, height and time of the row of the key; without a row nothing changes. -/
def UpdateAccountBalance (s : Store) (name : String) (amount : Int) (assetId h ut : Nat) :
    Except Err Store :=
  match s name assetId with
  | some _ => .ok (s.set name assetId ⟨amount, h, ut⟩)
  | none => .ok s

/-- Modelled from the spec: `db.InsertAccountBalance`, which is not among the sources.
It inserts a fresh row; a second row under the same key is refused. -/
def InsertAccountBalance (s : Store) (name : String) (value : Int) (assetId h ut : Nat) :
    Except Err Store :=
  match s name assetId with
  | some _ => .error .DuplicateEntry
  | none => .ok (s.set name assetId ⟨value, h, ut⟩)

/-! ## Go maps -/

/-- Go map as an association list. -/
abbrev GoMap (κ ν : Type) := List (κ × ν)

/-- Map read `m[k]` with its `ok` flag. -/
def GoMap.get {κ ν : Type} [DecidableEq κ] : GoMap κ ν → κ → Option ν
  | [], _ => none
  | (k', v) :: t, k => if k' = k then some v else GoMap.get t k

/-- Map write `m[k] = v`. -/
def GoMap.put {κ ν : Type} [DecidableEq κ] : GoMap κ ν → κ → ν → GoMap κ ν
  | [], k, v => [(k, v)]
  | (k', v') :: t, k, v => if k' = k then (k', v) :: t else (k', v') :: GoMap.put t k v

/-- The map `balanceChangedMap : map[string]map[uint64]*big.Int`. -/
abbrev BalanceMap := GoMap String (GoMap Nat Int)

namespace BalanceTask

/-! ## `task/balance.go` -/

/-- Embedding of `subBalance`. -/
def subBalance (s : Store) (frm : String) (assetId : Nat) (value : Int) (h ut : Nat) :
    Except Err Store :=
  match GetAccountBalance s frm assetId with
  | .error e => .error e
  | .ok balance =>
    let amount := balance - value
    if amount < 0 then .error .BalanceNotEnough
    else UpdateAccountBalance s frm amount assetId h ut

/-- Embedding of `addBalance`. -/
def addBalance (s : Store) (dst : String) (assetId : Nat) (value : Int) (h ut : Nat)
    (careAsset : Bool) : Except Err Store :=
  match GetAccountBalance s dst assetId with
  | .error .ErrNoRows =>
    if careAsset then .error .ErrNoRows
    else InsertAccountBalance s dst value assetId h ut
  | .error e => .error e
  | .ok balance => UpdateAccountBalance s dst (balance + value) assetId h ut

/-- Embedding of `changeBalance`. -/
def changeBalance (balancesMap : BalanceMap) (name : String) (assetId : Nat) (value : Int)
    (add : Bool) : BalanceMap :=
  if add then
    match balancesMap.get name with
    | some bs =>
      match bs.get assetId with
      | some b => balancesMap.put name (bs.put assetId (b + value))
      | none => balancesMap.put name (bs.put assetId value)
    | none => balancesMap.put name (GoMap.put [] assetId value)
  else
    match balancesMap.get name with
    | some bs =>
      match bs.get assetId with
      | some b => balancesMap.put name (bs.put assetId (b - value))
      | none => balancesMap.put name (bs.put assetId (0 - value))
    | none => balancesMap.put name (GoMap.put [] assetId (0 - value))

/-- The test `name != "" && name != config.Chain.ChainFeeName` guarding every map change. -/
def tracked (env : Env) (name : String) : Bool :=
  decide (name ≠ "") && decide (name ≠ env.ChainFeeName)

/-- The fee `gasUsed * SetUint64(tx.GasPrice.Uint64())` of one action. -/
def feeOf (tx : Tx) (actionReceipt : ActionResult) : Int :=
  (actionReceipt.GasUsed : Int) * (bigUint64 tx.GasPrice : Int)

/-- The loop skeleton shared by `analysisBalance` and `rollback`, inner part:
`for j, at := range tx.RPCActions { actionReceipt := receipt.ActionResults[j]; body }`. -/
def forActions {σ : Type} (body : Nat → Action → ActionResult → σ → Except Err σ)
    (results : List ActionResult) : Nat → List Action → σ → Except Err σ
  | _, [], st => .ok st
  | j, act :: rest, st =>
    match results[j]? with
    | none => .error .RuntimePanic
    | some actionReceipt =>
      match body j act actionReceipt st with
      | .error e => .error e
      | .ok st' => forActions body results (j + 1) rest st'

/-- The loop skeleton shared by `analysisBalance` and `rollback`, outer part:
`for i, tx := range txs { receipt := receipts[i]; for j, at := range tx.RPCActions ... }`. -/
def forTxs {σ : Type} (body : Nat → Nat → Tx → Action → ActionResult → σ → Except Err σ)
    (receipts : List Receipt) : Nat → List Tx → σ → Except Err σ
  | _, [], st => .ok st
  | i, tx :: rest, st =>
    match receipts[i]? with
    | none => .error .RuntimePanic
    | some receipt =>
      match forActions (fun j act ar => body i j tx act ar) receipt.ActionResults 0
          tx.RPCActions st with
      | .error e => .error e
      | .ok st' => forTxs body receipts (i + 1) rest st'

/-- Internal-log loop of `analysisBalance`: both changes use the outer action's asset and
amount. -/
def applyInternalLogs (env : Env) (act : Action) : List InternalLog → BalanceMap → BalanceMap
  | [], m => m
  | iat :: rest, m =>
    let m1 := if tracked env iat.Action.From then
      changeBalance m iat.Action.From act.AssetID act.Amount false else m
    let m2 := if tracked env iat.Action.To then
      changeBalance m1 iat.Action.To act.AssetID act.Amount true else m1
    applyInternalLogs env act rest m2

/-- Internal-log loop of `rollback`: both changes use the inner action's asset and amount. -/
def revertInternalLogs (env : Env) : List InternalLog → BalanceMap → BalanceMap
  | [], m => m
  | iat :: rest, m =>
    let m1 := if tracked env iat.Action.To then
      changeBalance m iat.Action.To iat.Action.AssetID iat.Action.Amount false else m
    let m2 := if tracked env iat.Action.From then
      changeBalance m1 iat.Action.From iat.Action.AssetID iat.Action.Amount true else m1
    revertInternalLogs env rest m2

/-- Lookup `detailTxs[i].InternalActions[j]`, panicking when an index is out of range. -/
def internalActionsAt (detailTxs : List DetailTx) (i j : Nat) : Except Err InternalAction :=
  match detailTxs[i]? with
  | none => .error .RuntimePanic
  | some d =>
    match d.InternalActions[j]? with
    | none => .error .RuntimePanic
    | some ia => .ok ia

/-- Body of the action loop of `analysisBalance` (source lines 72-117). -/
def applyAction (env : Env) (data : BlockAndResult) (i j : Nat) (tx : Tx) (act : Action)
    (actionReceipt : ActionResult) (st : BalanceMap × Store) : Except Err (BalanceMap × Store) :=
  let fee := feeOf tx actionReceipt
  let m1 := if data.height > 0 ∧ tracked env act.From then
    changeBalance st.1 act.From tx.GasAssetID fee false else st.1
  if actionReceipt.Status = env.ReceiptStatusSuccessful then
    let m2 := if act.Amount > 0 ∧ tracked env act.From then
      changeBalance m1 act.From act.AssetID act.Amount false else m1
    let m3 := if act.Amount > 0 ∧ tracked env act.To then
      changeBalance m2 act.To act.AssetID act.Amount true else m2
    let genesis : Except Err Store :=
      if data.height = 0 ∧ act.ActType = env.IssueAsset then
        match env.parsePayload act with
        | .error e => .error e
        | .ok arg =>
          match env.GetAssetInfoByName arg.AssetName with
          | .error e => .error e
          | .ok assetId =>
            InsertAccountBalance st.2 arg.Owner arg.Amount assetId data.height
              data.Block.Head.Time
      else .ok st.2
    match genesis with
    | .error e => .error e
    | .ok s1 =>
      if data.DetailTxs.length ≠ 0 then
        match internalActionsAt data.DetailTxs i j with
        | .error e => .error e
        | .ok internalActions => .ok (applyInternalLogs env act internalActions.InternalLogs m3, s1)
      else .ok (m3, s1)
  else .ok (m1, st.2)

/-- One step of the final loop: `addBalance` for a positive value, `subBalance` of the
absolute value for a negative one, nothing for zero.  The error either call may return is
dropped, as in the source; neither writes before failing. -/
def writeEntry (h ut : Nat) (name : String) (s : Store) (e : Nat × Int) : Store :=
  if e.2 > 0 then
    match addBalance s name e.1 e.2 h ut false with
    | .ok s' => s'
    | .error _ => s
  else if e.2 < 0 then
    match subBalance s name e.1 (e.2.natAbs : Int) h ut with
    | .ok s' => s'
    | .error _ => s
  else s

/-- The final loop `for name, bs := range balanceChangedMap { for assetId, v := range bs ... }`
of both `analysisBalance` and `rollback`. -/
def writeBack (h ut : Nat) (m : BalanceMap) (s : Store) : Store :=
  m.foldl (fun s nb => nb.2.foldl (writeEntry h ut nb.1) s) s

/-- Embedding of `BalanceTask.analysisBalance`. -/
def analysisBalance (env : Env) (data : BlockAndResult) (s : Store) : Except Err Store :=
  match forTxs (applyAction env data) data.Receipts 0 data.Block.Txs ([], s) with
  | .error e => .error e
  | .ok st => .ok (writeBack data.height data.Block.Head.Time st.1 st.2)

/-- Body of the action loop of `rollback` (source lines 175-204). -/
def revertAction (env : Env) (data : BlockAndResult) (i j : Nat) (tx : Tx) (act : Action)
    (actionReceipt : ActionResult) (st : BalanceMap × Store) : Except Err (BalanceMap × Store) :=
  let fee := feeOf tx actionReceipt
  let credited : Except Err Store :=
    if tracked env act.From then
      addBalance st.2 act.From tx.GasAssetID fee data.height data.Block.Head.Time false
    else .ok st.2
  match credited with
  | .error e => .error e
  | .ok s1 =>
    if actionReceipt.Status = env.ReceiptStatusSuccessful then
      let m1 := if act.Amount > 0 ∧ tracked env act.To then
        changeBalance st.1 act.To act.AssetID act.Amount false else st.1
      let m2 := if act.Amount > 0 ∧ tracked env act.From then
        changeBalance m1 act.From act.AssetID act.Amount true else m1
      if data.DetailTxs.length ≠ 0 then
        match internalActionsAt data.DetailTxs i j with
        | .error e => .error e
        | .ok internalActions => .ok (revertInternalLogs env internalActions.InternalLogs m2, s1)
      else .ok (m2, s1)
    else .ok (st.1, s1)

/-- Embedding of `BalanceTask.rollback`. -/
def rollback (env : Env) (data : BlockAndResult) (s : Store) : Except Err Store :=
  match forTxs (revertAction env data) data.Receipts 0 data.Block.Txs ([], s) with
  | .error e => .error e
  | .ok st => .ok (writeBack data.height data.Block.Head.Time st.1 st.2)

end BalanceTask


/-! ## The balance worker (`BalanceTask.Start`) -/

/-- State of the balance worker: its height cursor `b.startHeight` and the committed
`account_balance` table. -/
structure Worker where
  startHeight : Nat
  store : Store

/-- Modelled from the spec: `Base.init`, which is not among the sources.  It opens a store
transaction, which starts from the committed table. -/
def Base.init (b : Worker) : Store := b.store

/-- Modelled from the spec: `Base.commit`, which is not among the sources.  It commits the
transaction: the committed table becomes the one the transaction produced. -/
def Base.commit (b : Worker) (tx : Store) : Worker := { b with store := tx }

namespace BalanceTask

/-- The `data` case of the `select` in `BalanceTask.Start` (source lines 228-239) for one
received block; `panic(err)` ends the worker with the error. -/
def startData (env : Env) (b : Worker) (d : BlockAndResult) : Except Err Worker :=
  if d.height ≥ b.startHeight then
    match analysisBalance env d (Base.init b) with
    | .error e => .error e
    | .ok tx => .ok (Base.commit { b with startHeight := uint64 (b.startHeight + 1) } tx)
  else .ok b

/-- The `rollbackData` case of the `select` in `BalanceTask.Start` (source lines 240-251). -/
def startRollbackData (env : Env) (b : Worker) (rd : BlockAndResult) : Except Err Worker :=
  let b1 : Worker := { b with startHeight := uint64 (b.startHeight + twoPow64 - 1) }
  if rd.height = b1.startHeight then
    match rollback env rd (Base.init b1) with
    | .error e => .error e
    | .ok tx => .ok (Base.commit b1 tx)
  else .ok b1

end BalanceTask

/-! ## `dispatch/dispatch.go` -/

/-- Row of the `task_status` table (`db.TaskStatus`). -/
structure TaskStatus where
  TaskType : String
  Height : Nat
  deriving DecidableEq, Repr

/-- Row of the reversible block cache (`db.BlockOriginal`). -/
structure BlockOriginal where
  BlockData : List Nat
  Height : Nat
  BlockHash : String
  ParentHash : String
  deriving DecidableEq, Repr

/-- The chain RPC client as the dispatcher uses it: `client.GetBlockAndResult` (called with an
`int64`) and the `BftIrreversible` field of `client.GetDposIrreversible`. -/
structure Client where
  GetBlockAndResult : Int → Except Err BlockAndResult
  GetDposIrreversible : Except Err Nat

/-- Conversion `int64(x)` of a `uint64`. -/
def int64 (x : Nat) : Int :=
  if uint64 x < 9223372036854775808 then (uint64 x : Int) else (uint64 x : Int) - twoPow64

/-- Modelled from the spec: `db.Mysql.GetBlockOriginalByHeight`, which is not among the
sources.  It returns the cache row of the height, or nil when there is none. -/
def GetBlockOriginalByHeight (cache : List BlockOriginal) (height : Nat) :
    Option BlockOriginal :=
  cache.find? fun b => decide (b.Height = height)

/-- Modelled from the spec: `db.DeleteOverOriginalBlock`, which is not among the sources.
It deletes the cache rows with height at or above the given one. -/
def DeleteOverOriginalBlock (cache : List BlockOriginal) (height : Nat) : List BlockOriginal :=
  cache.filter fun b => decide (b.Height < height)

/-- Embedding of `BlobToBlock`; `decodeBytes` stands for `rlp.DecodeBytes`, and a decoding
error is the panic of `ZapLog.Panic`. -/
def BlobToBlock (decodeBytes : List Nat → Except Err BlockAndResult) (block : BlockOriginal) :
    Except Err BlockAndResult :=
  decodeBytes block.BlockData

/-- State of the dispatcher that `rollback` reads and writes: the fields `startHeight`,
`taskCount` and `currentBlock`, the queue of `blockDataChan`, the reversible block cache, and
the record of what was sent on each `taskRollbackDataChan[i]` and on `isRollbackChan`. -/
structure Dispatch where
  startHeight : Nat
  taskCount : Nat
  currentBlock : Option BlockAndResult
  blockDataChan : List BlockAndResult
  cache : List BlockOriginal
  rollbackSent : List (Nat × BlockAndResult)
  isRollbackSent : List Bool
  deriving DecidableEq

namespace Dispatch

/-- The loop over `taskStatusMap` in `getTaskStatus` (source lines 116-130), on the values in
the order the map yields them. -/
def startHeightLoop : List TaskStatus → Nat → Bool → Nat
  | [], startHeight, _ => startHeight
  | taskStatus :: rest, startHeight, startHeightInit =>
    let startHeight' :=
      if startHeightInit then taskStatus.Height
      else if taskStatus.Height < startHeight then taskStatus.Height
      else startHeight
    if startHeight' = 0 then startHeight'
    else startHeightLoop rest startHeight' false

/-- Embedding of `getTaskStatus`.  `firstRead` is what `db.Mysql.GetTaskStatus(config.Tasks)`
returns on entry and `secondRead` what it returns after the missing tasks were initialised;
`db.Mysql` is not among the sources. -/
def getTaskStatus (firstRead secondRead : GoMap String TaskStatus) (tasks : List String) :
    GoMap String TaskStatus × Nat :=
  let taskStatusMap := if firstRead.length ≠ tasks.length then secondRead else firstRead
  (taskStatusMap, startHeightLoop (taskStatusMap.map Prod.snd) 0 true)

/-- The `for ; ; endHeight--` loop of `Dispatch.rollback` (source lines 224-245), with fuel:
`none` means that the fuel ran out, `some (.error _)` that the dispatcher panicked. -/
def rollbackLoop (decodeBytes : List Nat → Except Err BlockAndResult) (client : Client) :
    Nat → Nat → Dispatch → Option (Except Err Dispatch)
  | 0, _, _ => none
  | fuel + 1, endHeight, d =>
    let dbBlock := GetBlockOriginalByHeight d.cache endHeight
    match client.GetBlockAndResult (int64 endHeight) with
    | .error _ => some (.error .Rpc)
    | .ok chainBlock =>
      match dbBlock with
      | none => some (.error .RuntimePanic)
      | some dbBlock =>
        if dbBlock.BlockHash ≠ chainBlock.Block.Hash then
          match BlobToBlock decodeBytes dbBlock with
          | .error e => some (.error e)
          | .ok block =>
            rollbackLoop decodeBytes client fuel (uint64 (endHeight + twoPow64 - 1))
              { d with
                rollbackSent := d.rollbackSent ++ (List.range d.taskCount).map fun i => (i, block)
                cache := DeleteOverOriginalBlock d.cache dbBlock.Height }
        else
          some (.ok { d with
            currentBlock := some chainBlock
            startHeight := uint64 (endHeight + 1) })

/-- Embedding of `Dispatch.rollback`: pause the producer, drain the block queue, walk down from
`currentBlock.height - 1`, resume the producer.  Waiting for the task results
(`checkTaskResult`) is not modelled. -/
def rollback (decodeBytes : List Nat → Except Err BlockAndResult) (client : Client)
    (fuel : Nat) (d : Dispatch) : Option (Except Err Dispatch) :=
  match d.currentBlock with
  | none => some (.error .RuntimePanic)
  | some currentBlock =>
    let endHeight := uint64 (currentBlock.height + twoPow64 - 1)
    match rollbackLoop decodeBytes client fuel endHeight
      { d with isRollbackSent := d.isRollbackSent ++ [true], blockDataChan := [] } with
    | none => none
    | some (.error e) => some (.error e)
    | some (.ok d') => some (.ok { d' with isRollbackSent := d'.isRollbackSent ++ [false] })

/-- Blocks sent on the rollback channel of task `i`, in order. -/
def sentTo (d : Dispatch) (i : Nat) : List BlockAndResult :=
  (d.rollbackSent.filter fun p => decide (p.1 = i)).map Prod.snd

/-- Heights `n - 1, n - 2, ..., a + 1` in this order. -/
def heightsDown (n a : Nat) : List Nat :=
  (List.range' (a + 1) (n - 1 - a)).reverse

end Dispatch

/-! ## Keys and recorded changes of Go maps -/

/-- Keys of a map in iteration order. -/
def GoMap.keys {κ ν : Type} (m : GoMap κ ν) : List κ := m.map Prod.fst

namespace BalanceTask

/-- Both levels of a balance map have unique keys. -/
def MapOk (m : BalanceMap) : Prop :=
  (GoMap.keys m).Nodup ∧ ∀ p ∈ m, (GoMap.keys p.2).Nodup

/-- The net change recorded for a key, zero when the map has no entry. -/
def delta (m : BalanceMap) (name : String) (assetId : Nat) : Int :=
  match m.get name with
  | some bs => (bs.get assetId).getD 0
  | none => 0

/-- Apply followed by revert of the same block. -/
def applyThenRevert (env : Env) (data : BlockAndResult) (s : Store) : Except Err Store :=
  match analysisBalance env data s with
  | .error e => .error e
  | .ok s1 => rollback env data s1

end BalanceTask

namespace BalanceTask

/-! ## Pointwise description of the final loop -/

/-- What one final-loop entry of value `v` does to the row of its own key: a positive value
is added (the row is inserted when missing), a negative value is subtracted when the row
exists and covers it, and otherwise the row is left as it is. -/
def entryEffect (h ut : Nat) (v : Int) (r : Option Row) : Option Row :=
  if v > 0 then
    match r with
    | none => some ⟨v, h, ut⟩
    | some row => some ⟨row.balance + v, h, ut⟩
  else if v < 0 then
    match r with
    | none => none
    | some row =>
      if row.balance - (v.natAbs : Int) < 0 then some row
      else some ⟨row.balance - (v.natAbs : Int), h, ut⟩
  else r

end BalanceTask

/-! ## Blocks as sequences of processed actions -/

/-- One pass of the action loop: a transaction, one of its actions and the action's result. -/
structure Step where
  tx : Tx
  act : Action
  res : ActionResult
  deriving DecidableEq, Repr

/-- Pairing of transactions with receipts and of actions with action results, in order. -/
def stepsOf (txs : List Tx) (receipts : List Receipt) : List Step :=
  (txs.zip receipts).flatMap fun p =>
    (p.1.RPCActions.zip p.2.ActionResults).map fun q => ⟨p.1, q.1, q.2⟩

/-- The actions of a block with their transaction and result, in processing order. -/
def steps (data : BlockAndResult) : List Step :=
  stepsOf data.Block.Txs data.Receipts

/-- Co-indexing of a block: one receipt for each transaction and one action result for each
action. -/
def WellFormed (data : BlockAndResult) : Prop :=
  data.Block.Txs.length = data.Receipts.length ∧
    ∀ p ∈ data.Block.Txs.zip data.Receipts, p.1.RPCActions.length = p.2.ActionResults.length

namespace BalanceTask

/-- Map part of one pass of the `analysisBalance` loop at a height above zero and without
internal-action details. -/
def applyStep (env : Env) (x : Step) (m : BalanceMap) : BalanceMap :=
  let m1 := if tracked env x.act.From then
    changeBalance m x.act.From x.tx.GasAssetID (feeOf x.tx x.res) false else m
  if x.res.Status = env.ReceiptStatusSuccessful then
    let m2 := if x.act.Amount > 0 ∧ tracked env x.act.From then
      changeBalance m1 x.act.From x.act.AssetID x.act.Amount false else m1
    if x.act.Amount > 0 ∧ tracked env x.act.To then
      changeBalance m2 x.act.To x.act.AssetID x.act.Amount true else m2
  else m1

/-- Map part of one pass of the `rollback` loop without internal-action details. -/
def revertStep (env : Env) (x : Step) (m : BalanceMap) : BalanceMap :=
  if x.res.Status = env.ReceiptStatusSuccessful then
    let m1 := if x.act.Amount > 0 ∧ tracked env x.act.To then
      changeBalance m x.act.To x.act.AssetID x.act.Amount false else m
    if x.act.Amount > 0 ∧ tracked env x.act.From then
      changeBalance m1 x.act.From x.act.AssetID x.act.Amount true else m1
  else m

/-- Store part of one pass of the `rollback` loop: the fee goes back to the payer. -/
def creditFee (env : Env) (h ut : Nat) (x : Step) (s : Store) : Store :=
  if tracked env x.act.From then
    s.set x.act.From x.tx.GasAssetID
      ⟨balanceOf s x.act.From x.tx.GasAssetID + feeOf x.tx x.res, h, ut⟩
  else s

end BalanceTask

/-! ## Sums over the actions of a block -/

/-- Sum of the amounts of the successful positive-amount actions of `l` whose `To` is `n`, in
asset `k`. -/
def creditedIn (env : Env) (l : List Step) (n : String) (k : Nat) : Int :=
  ((l.filter fun x => decide (x.res.Status = env.ReceiptStatusSuccessful ∧ 0 < x.act.Amount ∧
    x.act.To = n ∧ x.act.AssetID = k)).map fun x => x.act.Amount).sum

/-- Sum of the amounts of the successful positive-amount actions of `l` whose `From` is `n`,
in asset `k`. -/
def debitedIn (env : Env) (l : List Step) (n : String) (k : Nat) : Int :=
  ((l.filter fun x => decide (x.res.Status = env.ReceiptStatusSuccessful ∧ 0 < x.act.Amount ∧
    x.act.From = n ∧ x.act.AssetID = k)).map fun x => x.act.Amount).sum

/-- Sum of the exact products `gasUsed * gasPrice` over the actions of `l` whose `From` is `n`,
in a transaction whose gas asset is `k`. -/
def feesExactIn (l : List Step) (n : String) (k : Nat) : Int :=
  ((l.filter fun x => decide (x.act.From = n ∧ x.tx.GasAssetID = k)).map
    fun x => (x.res.GasUsed : Int) * x.tx.GasPrice).sum

/-- Sum of the fees as the code computes them (`feeOf`) over the actions of `l` whose `From` is
`n`, in a transaction whose gas asset is `k`. -/
def feesChargedIn (l : List Step) (n : String) (k : Nat) : Int :=
  ((l.filter fun x => decide (x.act.From = n ∧ x.tx.GasAssetID = k)).map
    fun x => BalanceTask.feeOf x.tx x.res).sum

/-- Net change of a key over a block as the code computes it: amounts received, minus amounts
sent, minus fees charged. -/
def netChange (env : Env) (data : BlockAndResult) (n : String) (k : Nat) : Int :=
  creditedIn env (steps data) n k - debitedIn env (steps data) n k -
    feesChargedIn (steps data) n k

/-- All balances of a store are non-negative. -/
def NonNeg (s : Store) : Prop := ∀ n k r, s n k = some r → 0 ≤ r.balance

namespace BalanceTask

/-- Amount that step `x` moves into the key `(n, k)`. -/
def stepCredit (env : Env) (x : Step) (n : String) (k : Nat) : Int :=
  if x.res.Status = env.ReceiptStatusSuccessful ∧ 0 < x.act.Amount ∧ x.act.To = n ∧
    x.act.AssetID = k then x.act.Amount else 0

/-- Amount that step `x` moves out of the key `(n, k)`. -/
def stepDebit (env : Env) (x : Step) (n : String) (k : Nat) : Int :=
  if x.res.Status = env.ReceiptStatusSuccessful ∧ 0 < x.act.Amount ∧ x.act.From = n ∧
    x.act.AssetID = k then x.act.Amount else 0

/-- Fee that step `x` charges to the key `(n, k)`. -/
def stepFee (x : Step) (n : String) (k : Nat) : Int :=
  if x.act.From = n ∧ x.tx.GasAssetID = k then feeOf x.tx x.res else 0

end BalanceTask

/-- Balance of an optional row, an absent row counting as zero. -/
def rowBalance : Option Row → Int
  | some r => r.balance
  | none => 0

/-- Sum of the amounts of the successful positive-amount actions of the block whose `To` is
`n`, in asset `k`. -/
def credited (env : Env) (data : BlockAndResult) (n : String) (k : Nat) : Int :=
  creditedIn env (steps data) n k

/-- Sum of the amounts of the successful positive-amount actions of the block whose `From` is
`n`, in asset `k`. -/
def debited (env : Env) (data : BlockAndResult) (n : String) (k : Nat) : Int :=
  debitedIn env (steps data) n k

/-- Sum of `gasUsed * gasPrice` over every action of the block whose `From` is `n`, in a
transaction whose gas asset is `k`. -/
def feesExact (data : BlockAndResult) (n : String) (k : Nat) : Int :=
  feesExactIn (steps data) n k

namespace Dispatch

/-- Record of sending each of `blocks`, in order, on the rollback channel of every one of
`taskCount` tasks. -/
def fanOut (taskCount : Nat) (blocks : List BlockAndResult) : List (Nat × BlockAndResult) :=
  blocks.flatMap fun b => (List.range taskCount).map fun i => (i, b)

end Dispatch

/-! ## Reading results -/

/-- Row of a key in the resulting table; `none` when the operation failed. -/
def rowAfter (r : Except Err Store) (n : String) (k : Nat) : Option (Option Row) :=
  match r with
  | .ok s => some (s n k)
  | .error _ => none

/-- Error of an operation on the table, if it failed. -/
def errorOf (r : Except Err Store) : Option Err :=
  match r with
  | .ok _ => none
  | .error e => some e

/-- Height cursor of the worker after a step; `none` when the worker panicked. -/
def cursorAfter (r : Except Err Worker) : Option Nat :=
  match r with
  | .ok b => some b.startHeight
  | .error _ => none

namespace Dispatch

/-- Heights of the blocks sent on the rollback channel of task `i` when the dispatcher's
rollback ended normally. -/
def sentHeights (r : Option (Except Err Dispatch)) (i : Nat) : Option (List Nat) :=
  match r with
  | some (.ok d) => some ((sentTo d i).map BlockAndResult.height)
  | _ => none

/-- The field `startHeight` when the dispatcher's rollback ended normally. -/
def startHeightAfter (r : Option (Except Err Dispatch)) : Option Nat :=
  match r with
  | some (.ok d) => some d.startHeight
  | _ => none

end Dispatch

/-! ## Concrete blocks and stores -/

namespace Scenario

/-- Configuration with fee sentinel `fractal.fee`; payloads do not parse. -/
def env : Env :=
  { ChainFeeName := "fractal.fee", ReceiptStatusSuccessful := 1, IssueAsset := 2,
    parsePayload := fun _ => .error .ParsePayload,
    GetAssetInfoByName := fun _ => .error .AssetInfo }

/-- Store in which `alice` holds 1000 of asset 1 and nobody else holds anything. -/
def aliceStore : Store := Store.empty.set "alice" 1 ⟨1000, 0, 0⟩

/-- Block of height 1 with one transaction (gas price 10, gas asset 1) whose single action
moves 100 of asset 1 from `alice` to `bob`, successfully and with 2 gas used. -/
def transferBlock : BlockAndResult :=
  { Block := { Head := ⟨1, 7⟩, Hash := "B", ParentHash := "A",
               Txs := [⟨1, 10, [⟨0, "alice", "bob", 1, 100, []⟩]⟩] },
    Receipts := [⟨[⟨1, 2⟩]⟩], DetailTxs := [] }

end Scenario

namespace Scenario

/-- Block of the given height and hashes without transactions. -/
def emptyBlock (height : Nat) (hash parentHash : String) : BlockAndResult :=
  { Block := { Head := ⟨height, 0⟩, Hash := hash, ParentHash := parentHash, Txs := [] },
    Receipts := [], DetailTxs := [] }

/-- Decoder of the cache rows below: the single byte is the height of an empty block of the
abandoned fork. -/
def decodeBytes : List Nat → Except Err BlockAndResult
  | [h] => .ok (emptyBlock h "stale" "stale")
  | _ => .error .RuntimePanic

/-- Chain whose blocks at heights 3, 4 and 5 have hashes `c3`, `c4`, `c5` and whose finalized
height is 5. -/
def client : Client :=
  { GetBlockAndResult := fun i =>
      if i = 3 then .ok (emptyBlock 3 "c3" "c2")
      else if i = 4 then .ok (emptyBlock 4 "c4" "c3")
      else if i = 5 then .ok (emptyBlock 5 "c5" "c4")
      else .error .Rpc
    GetDposIrreversible := .ok 5 }

/-- Chain row of a height for `client`. -/
def chainAt (h : Nat) : BlockAndResult :=
  if h = 3 then emptyBlock 3 "c3" "c2"
  else if h = 4 then emptyBlock 4 "c4" "c3"
  else emptyBlock 5 "c5" "c4"

/-- Cache rows at heights 3, 4 and 5; the rows at 4 and 5 are on another fork than the
chain. -/
def cacheRow (h : Nat) : BlockOriginal :=
  if h = 3 then ⟨[3], 3, "c3", "c2"⟩
  else if h = 4 then ⟨[4], 4, "x4", "c3"⟩
  else ⟨[5], 5, "x5", "x4"⟩

/-- Dispatcher with one task whose current block has height 6 and whose cache holds
`cacheRow 3`, `cacheRow 4`, `cacheRow 5`. -/
def dispatch : Dispatch :=
  { startHeight := 6, taskCount := 1,
    currentBlock := some (emptyBlock 6 "c6" "c5"),
    blockDataChan := [], cache := [cacheRow 3, cacheRow 4, cacheRow 5],
    rollbackSent := [], isRollbackSent := [] }

end Scenario

namespace Scenario

/-- Store in which `alice` holds 100 of asset 1 and nobody else holds anything. -/
def poorStore : Store := Store.empty.set "alice" 1 ⟨100, 0, 0⟩

/-- Block of height 1 whose single action moves 10000 of asset 1 from `alice` to `bob`,
successfully, at gas price 10 with 2 gas used. -/
def overdraftBlock : BlockAndResult :=
  { Block := { Head := ⟨1, 7⟩, Hash := "B", ParentHash := "A",
               Txs := [⟨1, 10, [⟨0, "alice", "bob", 1, 10000, []⟩]⟩] },
    Receipts := [⟨[⟨1, 2⟩]⟩], DetailTxs := [] }

/-- Transaction with gas price `2^64 + 1` and one action of `alice` that moves nothing. -/
def bigPriceTx : Tx := ⟨1, 18446744073709551617, [⟨0, "alice", "bob", 1, 0, []⟩]⟩

/-- Block of height 1 holding `bigPriceTx`, whose action used 2 gas. -/
def bigPriceBlock : BlockAndResult :=
  { Block := { Head := ⟨1, 7⟩, Hash := "B", ParentHash := "A", Txs := [bigPriceTx] },
    Receipts := [⟨[⟨1, 2⟩]⟩], DetailTxs := [] }

/-- Configuration in which every payload parses to the issue of `amount` of asset `X`
(asset id 3) to `owner`. -/
def genesisEnv (owner : String) (amount : Int) : Env :=
  { ChainFeeName := "fractal.fee", ReceiptStatusSuccessful := 1, IssueAsset := 2,
    parsePayload := fun _ => .ok ⟨"X", owner, amount⟩,
    GetAssetInfoByName := fun _ => .ok 3 }

/-- Genesis block (height 0) with one successful issue-asset action. -/
def genesisBlock : BlockAndResult :=
  { Block := { Head := ⟨0, 0⟩, Hash := "A", ParentHash := "0",
               Txs := [⟨1, 0, [⟨2, "fractal.founder", "", 0, 0, []⟩]⟩] },
    Receipts := [⟨[⟨1, 0⟩]⟩], DetailTxs := [] }

end Scenario

namespace Scenario

/-- Block of height 1 whose single action moves 100 of asset 1 from `alice` to `bob` with no
gas used, and whose internal log records an inner action moving 7 of asset 2 from `bob` to
`carol`. -/
def internalBlock : BlockAndResult :=
  { Block := { Head := ⟨1, 7⟩, Hash := "B", ParentHash := "A",
               Txs := [⟨1, 10, [⟨0, "alice", "bob", 1, 100, []⟩]⟩] },
    Receipts := [⟨[⟨1, 0⟩]⟩],
    DetailTxs := [⟨[⟨[⟨⟨0, "bob", "carol", 2, 7, []⟩⟩]⟩]⟩] }

end Scenario

namespace Scenario

/-- Three configured tasks. -/
def tasks : List String := ["balance", "token", "fee"]

/-- Map of task statuses with a row for each of `tasks`, at heights 5, 3 and 7. -/
def statusRead : GoMap String TaskStatus :=
  [("balance", ⟨"balance", 5⟩), ("token", ⟨"token", 3⟩), ("fee", ⟨"fee", 7⟩)]

/-- Map of task statuses read before the task `fee` has a row. -/
def statusReadShort : GoMap String TaskStatus :=
  [("balance", ⟨"balance", 5⟩), ("token", ⟨"token", 3⟩)]

/-- Map of task statuses read after `fee` was given its zero-valued row. -/
def statusReadFilled : GoMap String TaskStatus :=
  [("balance", ⟨"balance", 5⟩), ("token", ⟨"token", 3⟩), ("fee", ⟨"fee", 0⟩)]

end Scenario

/-! ## Go maps: reads after writes, unique keys -/

namespace GoMap

variable {κ ν : Type} [DecidableEq κ]

theorem get_put (m : GoMap κ ν) (k k' : κ) (v : ν) :
    (m.put k v).get k' = if k' = k then some v else m.get k' := by
  induction m with
  | nil =>
    by_cases h : k = k'
    · subst h; simp [GoMap.put, GoMap.get]
    · have h' : ¬ k' = k := fun e => h e.symm
      simp [GoMap.put, GoMap.get, h, h']
  | cons p t ih =>
    obtain ⟨k0, v0⟩ := p
    by_cases h0 : k0 = k
    · subst h0
      by_cases h1 : k0 = k'
      · subst h1; simp [GoMap.put, GoMap.get]
      · have h1' : ¬ k' = k0 := fun e => h1 e.symm
        simp [GoMap.put, GoMap.get, h1, h1']
    · by_cases h1 : k0 = k'
      · subst h1
        have h0' : ¬ k0 = k := h0
        simp [GoMap.put, GoMap.get, h0']
      · simp [GoMap.put, GoMap.get, h0, h1, ih]

theorem mem_put (m : GoMap κ ν) (k : κ) (v : ν) (p : κ × ν) (hp : p ∈ m.put k v) :
    p = (k, v) ∨ p ∈ m := by
  induction m with
  | nil => simp [GoMap.put] at hp; exact Or.inl hp
  | cons q t ih =>
    obtain ⟨k0, v0⟩ := q
    by_cases h0 : k0 = k
    · subst h0
      simp [GoMap.put] at hp
      rcases hp with hp | hp
      · exact Or.inl hp
      · exact Or.inr (List.mem_cons_of_mem _ hp)
    · simp [GoMap.put, h0] at hp
      rcases hp with hp | hp
      · exact Or.inr (by rw [hp]; exact List.mem_cons_self _ _)
      · rcases ih hp with h | h
        · exact Or.inl h
        · exact Or.inr (List.mem_cons_of_mem _ h)

theorem mem_keys_put (m : GoMap κ ν) (k : κ) (v : ν) (x : κ) (hx : x ∈ keys (m.put k v)) :
    x = k ∨ x ∈ keys m := by
  unfold keys at hx ⊢
  rw [List.mem_map] at hx
  obtain ⟨p, hp, rfl⟩ := hx
  rcases mem_put m k v p hp with h | h
  · left; rw [h]
  · right; exact List.mem_map_of_mem _ h

theorem keys_put_nodup (m : GoMap κ ν) (k : κ) (v : ν) (h : (keys m).Nodup) :
    (keys (m.put k v)).Nodup := by
  induction m with
  | nil => simp [GoMap.put, keys]
  | cons q t ih =>
    obtain ⟨k0, v0⟩ := q
    have ht : (keys t).Nodup := by
      simp only [keys, List.map_cons, List.nodup_cons] at h
      exact h.2
    have hk0 : k0 ∉ keys t := by
      simp only [keys, List.map_cons, List.nodup_cons] at h
      exact h.1
    by_cases h0 : k0 = k
    · subst h0
      simpa [GoMap.put, keys] using h
    · have : keys (GoMap.put ((k0, v0) :: t) k v) = k0 :: keys (GoMap.put t k v) := by
        simp [GoMap.put, h0, keys]
      rw [this, List.nodup_cons]
      refine ⟨?_, ih ht⟩
      intro hmem
      rcases mem_keys_put t k v k0 hmem with h1 | h1
      · exact h0 h1
      · exact hk0 h1

theorem get_eq_none_of_not_mem (m : GoMap κ ν) (k : κ) (h : k ∉ keys m) : m.get k = none := by
  induction m with
  | nil => rfl
  | cons q t ih =>
    obtain ⟨k0, v0⟩ := q
    simp only [keys, List.map_cons, List.mem_cons, not_or] at h
    have h0 : ¬ k0 = k := fun e => h.1 e.symm
    simp only [GoMap.get, h0, if_false]
    exact ih h.2

theorem mem_of_get_eq_some (m : GoMap κ ν) (k : κ) (v : ν) (h : m.get k = some v) :
    (k, v) ∈ m := by
  induction m with
  | nil => simp [GoMap.get] at h
  | cons q t ih =>
    obtain ⟨k0, v0⟩ := q
    by_cases h0 : k0 = k
    · subst h0
      simp [GoMap.get] at h
      subst h
      exact List.mem_cons_self _ _
    · simp only [GoMap.get, h0, if_false] at h
      exact List.mem_cons_of_mem _ (ih h)

end GoMap

namespace BalanceTask

/-! ## The map of net changes -/

theorem mapOk_nil : MapOk ([] : BalanceMap) := by
  constructor
  · simp [GoMap.keys]
  · intro p hp; simp at hp

theorem mapOk_put (m : BalanceMap) (name : String) (bs : GoMap Nat Int) (hm : MapOk m)
    (hbs : (GoMap.keys bs).Nodup) : MapOk (m.put name bs) := by
  refine ⟨GoMap.keys_put_nodup m name bs hm.1, ?_⟩
  intro p hp
  rcases GoMap.mem_put m name bs p hp with h | h
  · rw [h]; exact hbs
  · exact hm.2 p h

theorem changeBalance_mapOk (m : BalanceMap) (name : String) (assetId : Nat) (value : Int)
    (add : Bool) (hm : MapOk m) : MapOk (changeBalance m name assetId value add) := by
  unfold changeBalance
  cases hg : m.get name with
  | none =>
    cases add <;> simp only [if_true, if_false, Bool.false_eq_true] <;>
      exact mapOk_put m name _ hm (GoMap.keys_put_nodup [] assetId _ (by simp [GoMap.keys]))
  | some bs =>
    have hbs : (GoMap.keys bs).Nodup := hm.2 (name, bs) (GoMap.mem_of_get_eq_some m name bs hg)
    cases add <;> simp only [if_true, if_false, Bool.false_eq_true] <;>
      (cases bs.get assetId <;>
        exact mapOk_put m name _ hm (GoMap.keys_put_nodup bs assetId _ hbs))

theorem delta_changeBalance (m : BalanceMap) (name : String) (assetId : Nat) (value : Int)
    (add : Bool) (n : String) (k : Nat) :
    delta (changeBalance m name assetId value add) n k =
      delta m n k + (if n = name ∧ k = assetId then (if add then value else -value) else 0) := by
  unfold changeBalance delta
  by_cases hn : n = name
  · subst hn
    by_cases hk : k = assetId
    · subst hk
      cases hg : m.get n with
      | none => cases add <;> simp [GoMap.get_put, GoMap.get]
      | some bs =>
        cases hb : bs.get k with
        | none => cases add <;> simp [GoMap.get_put, hb]
        | some b =>
          (cases add <;> simp [GoMap.get_put, hb])
          ring
    · have hk' : ¬ assetId = k := fun e => hk e.symm
      cases hg : m.get n with
      | none => cases add <;> simp [GoMap.get_put, GoMap.get, hk, hk']
      | some bs =>
        cases hb : bs.get assetId with
        | none => cases add <;> simp [GoMap.get_put, hb, hk]
        | some b => cases add <;> simp [GoMap.get_put, hb, hk]
  · cases hg : m.get name with
    | none => cases add <;> simp [GoMap.get_put, hn]
    | some bs =>
      cases hb : bs.get assetId with
      | none => cases add <;> simp [GoMap.get_put, hb, hn]
      | some b => cases add <;> simp [GoMap.get_put, hb, hn]

end BalanceTask

namespace BalanceTask

/-! ## The final loop, key by key -/

theorem entryEffect_zero (h ut : Nat) (r : Option Row) : entryEffect h ut 0 r = r := by
  simp [entryEffect]

theorem writeEntry_apply (h ut : Nat) (name : String) (s : Store) (k : Nat) (v : Int)
    (n : String) (k' : Nat) :
    writeEntry h ut name s (k, v) n k' =
      if n = name ∧ k' = k then entryEffect h ut v (s name k) else s n k' := by
  unfold writeEntry entryEffect addBalance subBalance GetAccountBalance InsertAccountBalance
    UpdateAccountBalance
  by_cases hv : v > 0
  · simp only [hv, if_true]
    cases hs : s name k with
    | none =>
      simp only [Bool.false_eq_true, if_false, hs]
      by_cases hk : n = name ∧ k' = k
      · simp [Store.set, hk]
      · simp [Store.set, hk]
    | some row =>
      simp only [hs]
      by_cases hk : n = name ∧ k' = k
      · simp [Store.set, hk]
      · simp [Store.set, hk]
  · simp only [hv, if_false]
    by_cases hv' : v < 0
    · simp only [hv', if_true]
      cases hs : s name k with
      | none =>
        by_cases hk : n = name ∧ k' = k
        · simp [hk, hs]
        · simp [hk]
      | some row =>
        simp only [hs]
        by_cases hb : row.balance - (v.natAbs : Int) < 0
        · simp only [hb, if_true]
          by_cases hk : n = name ∧ k' = k
          · simp [hk, hs]
          · simp [hk]
        · simp only [hb, if_false]
          by_cases hk : n = name ∧ k' = k
          · simp [Store.set, hk, hs]
          · simp [Store.set, hk]
    · simp only [hv', if_false]
      by_cases hk : n = name ∧ k' = k
      · simp [hk]
      · simp [hk]

theorem foldl_writeEntry_apply (h ut : Nat) (name : String) (bs : GoMap Nat Int)
    (hbs : (GoMap.keys bs).Nodup) (s : Store) (n : String) (k : Nat) :
    (bs.foldl (writeEntry h ut name) s) n k =
      if n = name then entryEffect h ut ((bs.get k).getD 0) (s n k) else s n k := by
  induction bs generalizing s with
  | nil => simp [GoMap.get, entryEffect_zero]
  | cons q t ih =>
    obtain ⟨k0, v0⟩ := q
    have ht : (GoMap.keys t).Nodup := by
      simp only [GoMap.keys, List.map_cons, List.nodup_cons] at hbs
      exact hbs.2
    have hk0 : k0 ∉ GoMap.keys t := by
      simp only [GoMap.keys, List.map_cons, List.nodup_cons] at hbs
      exact hbs.1
    rw [List.foldl_cons, ih ht]
    by_cases hn : n = name
    · subst hn
      simp only [if_true]
      by_cases hk : k0 = k
      · subst hk
        rw [GoMap.get_eq_none_of_not_mem t k0 hk0]
        simp [GoMap.get, entryEffect_zero, writeEntry_apply]
      · have hk' : ¬ k = k0 := fun e => hk e.symm
        simp [GoMap.get, hk, hk', writeEntry_apply]
    · simp [hn, writeEntry_apply]

/-- The final loop acts on each key by `entryEffect` with the net change recorded for it. -/
theorem writeBack_apply (h ut : Nat) (m : BalanceMap) (hm : MapOk m) (s : Store)
    (n : String) (k : Nat) :
    writeBack h ut m s n k = entryEffect h ut (delta m n k) (s n k) := by
  unfold writeBack
  induction m generalizing s with
  | nil => simp [delta, GoMap.get, entryEffect_zero]
  | cons q t ih =>
    obtain ⟨n0, bs⟩ := q
    have ht : MapOk t := by
      refine ⟨?_, fun p hp => hm.2 p (List.mem_cons_of_mem _ hp)⟩
      have := hm.1
      simp only [GoMap.keys, List.map_cons, List.nodup_cons] at this
      exact this.2
    have hn0 : n0 ∉ GoMap.keys t := by
      have := hm.1
      simp only [GoMap.keys, List.map_cons, List.nodup_cons] at this
      exact this.1
    have hbs : (GoMap.keys bs).Nodup := hm.2 (n0, bs) (List.mem_cons_self _ _)
    rw [List.foldl_cons, ih ht]
    by_cases hn : n0 = n
    · subst hn
      have hd : delta t n0 k = 0 := by
        simp [delta, GoMap.get_eq_none_of_not_mem t n0 hn0]
      rw [hd, entryEffect_zero]
      simp [delta, GoMap.get, foldl_writeEntry_apply h ut n0 bs hbs]
    · have hn' : ¬ n = n0 := fun e => hn e.symm
      simp [delta, GoMap.get, hn, hn', foldl_writeEntry_apply h ut n0 bs hbs]

/-- The order in which the final loop visits the map does not matter: two maps with unique
keys that record the same net changes are written back to the same store. -/
theorem writeBack_order_irrelevant (h ut : Nat) (m m' : BalanceMap) (hm : MapOk m)
    (hm' : MapOk m') (hsame : ∀ n k, delta m n k = delta m' n k) (s : Store) :
    writeBack h ut m s = writeBack h ut m' s := by
  funext n k
  rw [writeBack_apply h ut m hm, writeBack_apply h ut m' hm', hsame]

end BalanceTask

namespace BalanceTask

/-! ## The loop skeleton on co-indexed blocks -/

theorem forActions_pure {σ : Type} (body : Nat → Action → ActionResult → σ → Except Err σ)
    (g : Action → ActionResult → σ → σ)
    (hbody : ∀ j act ar st, body j act ar st = .ok (g act ar st))
    (results : List ActionResult) (acts : List Action) :
    ∀ (j : Nat) (st : σ), acts.length + j ≤ results.length →
      forActions body results j acts st =
        .ok ((acts.zip (results.drop j)).foldl (fun st q => g q.1 q.2 st) st) := by
  induction acts with
  | nil => intro j st _; simp [forActions]
  | cons act rest ih =>
    intro j st hlen
    have hj : j < results.length := by
      simp only [List.length_cons] at hlen; omega
    have hrest : rest.length + (j + 1) ≤ results.length := by
      simp only [List.length_cons] at hlen; omega
    rw [List.drop_eq_getElem_cons hj]
    simp only [forActions, List.getElem?_eq_getElem hj, hbody, List.zip_cons_cons,
      List.foldl_cons]
    exact ih (j + 1) _ hrest

theorem foldl_flatMap_eq {α β σ : Type} (f : α → List β) (g : σ → β → σ) (l : List α) :
    ∀ st : σ, (l.flatMap f).foldl g st = l.foldl (fun st a => (f a).foldl g st) st := by
  induction l with
  | nil => intro st; simp
  | cons a t ih => intro st; simp [List.flatMap_cons, List.foldl_append, ih]

theorem stepsOf_cons (tx : Tx) (txs : List Tx) (r : Receipt) (rs : List Receipt) :
    stepsOf (tx :: txs) (r :: rs) =
      ((tx.RPCActions.zip r.ActionResults).map fun q => (⟨tx, q.1, q.2⟩ : Step)) ++
        stepsOf txs rs := by
  simp [stepsOf, List.flatMap_cons]

theorem forTxs_pure {σ : Type}
    (body : Nat → Nat → Tx → Action → ActionResult → σ → Except Err σ)
    (g : Step → σ → σ)
    (hbody : ∀ i j tx act ar st, body i j tx act ar st = .ok (g ⟨tx, act, ar⟩ st))
    (receipts : List Receipt) (txs : List Tx) :
    ∀ (i : Nat) (st : σ), txs.length + i ≤ receipts.length →
      (∀ p ∈ txs.zip (receipts.drop i), p.1.RPCActions.length ≤ p.2.ActionResults.length) →
      forTxs body receipts i txs st =
        .ok ((stepsOf txs (receipts.drop i)).foldl (fun st x => g x st) st) := by
  induction txs with
  | nil => intro i st _ _; simp [forTxs, stepsOf]
  | cons tx rest ih =>
    intro i st hlen hacts
    have hi : i < receipts.length := by
      simp only [List.length_cons] at hlen; omega
    have hrest : rest.length + (i + 1) ≤ receipts.length := by
      simp only [List.length_cons] at hlen; omega
    have hdrop : receipts.drop i = receipts[i] :: receipts.drop (i + 1) :=
      List.drop_eq_getElem_cons hi
    have hhead : tx.RPCActions.length + 0 ≤ (receipts[i]).ActionResults.length := by
      have := hacts (tx, receipts[i]) (by rw [hdrop, List.zip_cons_cons]; exact List.mem_cons_self _ _)
      simpa using this
    have htail : ∀ p ∈ rest.zip (receipts.drop (i + 1)),
        p.1.RPCActions.length ≤ p.2.ActionResults.length := by
      intro p hp
      exact hacts p (by rw [hdrop, List.zip_cons_cons]; exact List.mem_cons_of_mem _ hp)
    rw [hdrop]
    have hinner := forActions_pure (fun j act ar => body i j tx act ar)
      (fun act ar st => g ⟨tx, act, ar⟩ st) (fun j act ar st => hbody i j tx act ar st)
      (receipts[i]).ActionResults tx.RPCActions 0 st hhead
    simp only [forTxs, List.getElem?_eq_getElem hi, hinner, List.drop_zero]
    rw [ih (i + 1) _ hrest htail, stepsOf_cons, List.foldl_append, List.foldl_map]

/-- On a co-indexed block the loop skeleton with an infallible body is a fold over the
block's steps. -/
theorem forTxs_steps {σ : Type}
    (body : Nat → Nat → Tx → Action → ActionResult → σ → Except Err σ)
    (g : Step → σ → σ)
    (hbody : ∀ i j tx act ar st, body i j tx act ar st = .ok (g ⟨tx, act, ar⟩ st))
    (data : BlockAndResult) (hwf : WellFormed data) (st : σ) :
    forTxs body data.Receipts 0 data.Block.Txs st =
      .ok ((steps data).foldl (fun st x => g x st) st) := by
  have h := forTxs_pure body g hbody data.Receipts data.Block.Txs 0 st
    (by have := hwf.1; omega)
    (by intro p hp; rw [List.drop_zero] at hp; exact le_of_eq (hwf.2 p hp))
  simpa [steps] using h

end BalanceTask

namespace BalanceTask

/-! ## The loop bodies as steps -/

theorem addBalance_insert (s : Store) (n : String) (k : Nat) (v : Int) (h ut : Nat) :
    addBalance s n k v h ut false = .ok (s.set n k ⟨balanceOf s n k + v, h, ut⟩) := by
  unfold addBalance GetAccountBalance InsertAccountBalance UpdateAccountBalance balanceOf
  cases hs : s n k with
  | none => simp
  | some r => simp

theorem applyAction_eq (env : Env) (data : BlockAndResult) (hh : 0 < data.height)
    (hd : data.DetailTxs = []) (i j : Nat) (tx : Tx) (act : Action) (ar : ActionResult)
    (st : BalanceMap × Store) :
    applyAction env data i j tx act ar st = .ok (applyStep env ⟨tx, act, ar⟩ st.1, st.2) := by
  have hne : ¬ data.height = 0 := by omega
  unfold applyAction applyStep
  simp only [hh, hne, hd, List.length_nil, gt_iff_lt, true_and, false_and, if_false, ne_eq,
    not_true_eq_false]
  by_cases hs : ar.Status = env.ReceiptStatusSuccessful
  · simp only [hs, if_true]
  · simp only [hs, if_false]

theorem revertAction_eq (env : Env) (data : BlockAndResult) (hd : data.DetailTxs = [])
    (i j : Nat) (tx : Tx) (act : Action) (ar : ActionResult) (st : BalanceMap × Store) :
    revertAction env data i j tx act ar st =
      .ok (revertStep env ⟨tx, act, ar⟩ st.1,
        creditFee env data.height data.Block.Head.Time ⟨tx, act, ar⟩ st.2) := by
  unfold revertAction revertStep creditFee
  simp only [hd, List.length_nil, ne_eq, not_true_eq_false, if_false, addBalance_insert]
  by_cases ht : tracked env act.From = true
  · simp only [ht, if_true]
    by_cases hs : ar.Status = env.ReceiptStatusSuccessful
    · simp only [hs, if_true]
    · simp only [hs, if_false]
  · simp only [ht, if_false, Bool.false_eq_true, and_false]
    by_cases hs : ar.Status = env.ReceiptStatusSuccessful
    · simp only [hs, if_true]
    · simp only [hs, if_false]

theorem foldl_pair {α β γ : Type} (f : γ → α → α) (g : γ → β → β) (l : List γ) :
    ∀ (a : α) (b : β), l.foldl (fun st x => (f x st.1, g x st.2)) (a, b) =
      (l.foldl (fun a x => f x a) a, l.foldl (fun b x => g x b) b) := by
  induction l with
  | nil => intro a b; rfl
  | cons x t ih => intro a b; simp only [List.foldl_cons, ih]

/-- At a height above zero and without internal-action details, `analysisBalance` on a
co-indexed block writes back the map folded from the block's steps. -/
theorem analysisBalance_eq (env : Env) (data : BlockAndResult) (hh : 0 < data.height)
    (hd : data.DetailTxs = []) (hwf : WellFormed data) (s : Store) :
    analysisBalance env data s =
      .ok (writeBack data.height data.Block.Head.Time
        ((steps data).foldl (fun m x => applyStep env x m) []) s) := by
  unfold analysisBalance
  rw [forTxs_steps (applyAction env data) (fun x st => (applyStep env x st.1, st.2))
    (fun i j tx act ar st => applyAction_eq env data hh hd i j tx act ar st) data hwf]
  have := foldl_pair (fun x m => applyStep env x m) (fun (_ : Step) (s : Store) => s)
    (steps data) [] s
  simp only [this]
  congr 2
  clear this
  generalize steps data = l
  induction l with
  | nil => rfl
  | cons x t ih => simp [ih]

/-- Without internal-action details, `rollback` on a co-indexed block first credits every fee
and then writes back the map folded from the block's steps. -/
theorem rollback_eq (env : Env) (data : BlockAndResult) (hd : data.DetailTxs = [])
    (hwf : WellFormed data) (s : Store) :
    rollback env data s =
      .ok (writeBack data.height data.Block.Head.Time
        ((steps data).foldl (fun m x => revertStep env x m) [])
        ((steps data).foldl
          (fun s x => creditFee env data.height data.Block.Head.Time x s) s)) := by
  unfold rollback
  rw [forTxs_steps (revertAction env data)
    (fun x st => (revertStep env x st.1,
      creditFee env data.height data.Block.Head.Time x st.2))
    (fun i j tx act ar st => revertAction_eq env data hd i j tx act ar st) data hwf]
  have := foldl_pair (fun x m => revertStep env x m)
    (fun x s => creditFee env data.height data.Block.Head.Time x s) (steps data) [] s
  simp only [this]

end BalanceTask

namespace BalanceTask

/-! ## Net changes recorded by the loops -/

theorem creditedIn_cons (env : Env) (x : Step) (l : List Step) (n : String) (k : Nat) :
    creditedIn env (x :: l) n k = stepCredit env x n k + creditedIn env l n k := by
  unfold creditedIn stepCredit
  rw [List.filter_cons]
  split_ifs with h1 h2 h2
  · simp
  · exact absurd (of_decide_eq_true h1) h2
  · exact absurd (decide_eq_true h2) h1
  · simp

theorem debitedIn_cons (env : Env) (x : Step) (l : List Step) (n : String) (k : Nat) :
    debitedIn env (x :: l) n k = stepDebit env x n k + debitedIn env l n k := by
  unfold debitedIn stepDebit
  rw [List.filter_cons]
  split_ifs with h1 h2 h2
  · simp
  · exact absurd (of_decide_eq_true h1) h2
  · exact absurd (decide_eq_true h2) h1
  · simp

theorem feesChargedIn_cons (x : Step) (l : List Step) (n : String) (k : Nat) :
    feesChargedIn (x :: l) n k = stepFee x n k + feesChargedIn l n k := by
  unfold feesChargedIn stepFee
  rw [List.filter_cons]
  split_ifs with h1 h2 h2
  · simp
  · exact absurd (of_decide_eq_true h1) h2
  · exact absurd (decide_eq_true h2) h1
  · simp

theorem tracked_iff (env : Env) (n : String) :
    tracked env n = true ↔ n ≠ "" ∧ n ≠ env.ChainFeeName := by
  simp [tracked]

theorem applyStep_mapOk (env : Env) (x : Step) (m : BalanceMap) (hm : MapOk m) :
    MapOk (applyStep env x m) := by
  unfold applyStep
  split_ifs <;> first
    | exact hm
    | exact changeBalance_mapOk _ _ _ _ _ hm
    | exact changeBalance_mapOk _ _ _ _ _ (changeBalance_mapOk _ _ _ _ _ hm)
    | exact changeBalance_mapOk _ _ _ _ _
        (changeBalance_mapOk _ _ _ _ _ (changeBalance_mapOk _ _ _ _ _ hm))

theorem revertStep_mapOk (env : Env) (x : Step) (m : BalanceMap) (hm : MapOk m) :
    MapOk (revertStep env x m) := by
  unfold revertStep
  split_ifs <;> first
    | exact hm
    | exact changeBalance_mapOk _ _ _ _ _ hm
    | exact changeBalance_mapOk _ _ _ _ _ (changeBalance_mapOk _ _ _ _ _ hm)

theorem foldl_mapOk (f : Step → BalanceMap → BalanceMap)
    (hf : ∀ x m, MapOk m → MapOk (f x m)) (l : List Step) :
    ∀ m, MapOk m → MapOk (l.foldl (fun m x => f x m) m) := by
  induction l with
  | nil => intro m hm; exact hm
  | cons x t ih => intro m hm; exact ih _ (hf x m hm)

theorem delta_ite (c : Prop) [Decidable c] (m : BalanceMap) (name : String) (a : Nat)
    (v : Int) (add : Bool) (n : String) (k : Nat) :
    delta (if c then changeBalance m name a v add else m) n k =
      delta m n k + (if c ∧ n = name ∧ k = a then (if add then v else -v) else 0) := by
  by_cases hc : c
  · simp [hc, delta_changeBalance]
  · simp [hc]

theorem fee_term (env : Env) (x : Step) (n : String) (k : Nat) (hn : tracked env n = true) :
    (if tracked env x.act.From = true ∧ n = x.act.From ∧ k = x.tx.GasAssetID
      then -(feeOf x.tx x.res) else 0) = -(stepFee x n k) := by
  unfold stepFee
  by_cases h : n = x.act.From
  · subst h
    by_cases hk : k = x.tx.GasAssetID
    · subst hk; simp [hn]
    · have hk' : ¬ x.tx.GasAssetID = k := fun e => hk e.symm
      simp [hk, hk']
  · have h' : ¬ x.act.From = n := fun e => h e.symm
    simp [h, h']

theorem debit_term (env : Env) (x : Step) (n : String) (k : Nat) (hn : tracked env n = true)
    (hs : x.res.Status = env.ReceiptStatusSuccessful) :
    (if (x.act.Amount > 0 ∧ tracked env x.act.From = true) ∧ n = x.act.From ∧
      k = x.act.AssetID then -(x.act.Amount) else 0) = -(stepDebit env x n k) := by
  unfold stepDebit
  by_cases h : n = x.act.From
  · subst h
    by_cases hk : k = x.act.AssetID
    · subst hk
      by_cases ha : 0 < x.act.Amount
      · simp [hn, hs, ha]
      · simp [hs, ha]
    · have hk' : ¬ x.act.AssetID = k := fun e => hk e.symm
      simp [hk, hk']
  · have h' : ¬ x.act.From = n := fun e => h e.symm
    simp [h, h']

theorem credit_term (env : Env) (x : Step) (n : String) (k : Nat) (hn : tracked env n = true)
    (hs : x.res.Status = env.ReceiptStatusSuccessful) :
    (if (x.act.Amount > 0 ∧ tracked env x.act.To = true) ∧ n = x.act.To ∧
      k = x.act.AssetID then x.act.Amount else 0) = stepCredit env x n k := by
  unfold stepCredit
  by_cases h : n = x.act.To
  · subst h
    by_cases hk : k = x.act.AssetID
    · subst hk
      by_cases ha : 0 < x.act.Amount
      · simp [hn, hs, ha]
      · simp [hs, ha]
    · have hk' : ¬ x.act.AssetID = k := fun e => hk e.symm
      simp [hk, hk']
  · have h' : ¬ x.act.To = n := fun e => h e.symm
    simp [h, h']

theorem step_terms_of_failed (env : Env) (x : Step) (n : String) (k : Nat)
    (hs : ¬ x.res.Status = env.ReceiptStatusSuccessful) :
    stepCredit env x n k = 0 ∧ stepDebit env x n k = 0 := by
  simp [stepCredit, stepDebit, hs]

theorem delta_applyStep (env : Env) (x : Step) (m : BalanceMap) (n : String) (k : Nat)
    (hn : tracked env n = true) :
    delta (applyStep env x m) n k =
      delta m n k + stepCredit env x n k - stepDebit env x n k - stepFee x n k := by
  unfold applyStep
  by_cases hs : x.res.Status = env.ReceiptStatusSuccessful
  · simp only [hs, if_true, delta_ite, Bool.false_eq_true, if_false]
    rw [fee_term env x n k hn, debit_term env x n k hn hs, credit_term env x n k hn hs]
    ring
  · simp only [hs, if_false, delta_ite, Bool.false_eq_true]
    rw [fee_term env x n k hn, (step_terms_of_failed env x n k hs).1,
      (step_terms_of_failed env x n k hs).2]
    ring

theorem delta_revertStep (env : Env) (x : Step) (m : BalanceMap) (n : String) (k : Nat)
    (hn : tracked env n = true) :
    delta (revertStep env x m) n k =
      delta m n k - stepCredit env x n k + stepDebit env x n k := by
  unfold revertStep
  by_cases hs : x.res.Status = env.ReceiptStatusSuccessful
  · simp only [hs, if_true, delta_ite, Bool.false_eq_true, if_false]
    have hc := credit_term env x n k hn hs
    have hd := debit_term env x n k hn hs
    have hc' : (if (x.act.Amount > 0 ∧ tracked env x.act.To = true) ∧ n = x.act.To ∧
        k = x.act.AssetID then -(x.act.Amount) else 0) = -(stepCredit env x n k) := by
      rw [← hc]; split_ifs <;> simp
    have hd' : (if (x.act.Amount > 0 ∧ tracked env x.act.From = true) ∧ n = x.act.From ∧
        k = x.act.AssetID then x.act.Amount else 0) = stepDebit env x n k := by
      have : stepDebit env x n k = -(-(stepDebit env x n k)) := by ring
      rw [this, ← hd]; split_ifs <;> simp
    rw [hc', hd']
    ring
  · simp only [hs, if_false]
    rw [(step_terms_of_failed env x n k hs).1, (step_terms_of_failed env x n k hs).2]
    ring

theorem delta_untracked_applyStep (env : Env) (x : Step) (m : BalanceMap) (n : String)
    (k : Nat) (hn : ¬ tracked env n = true) :
    delta (applyStep env x m) n k = delta m n k := by
  have hF : ∀ c : Prop, ¬ ((c ∧ tracked env x.act.From = true) ∧ n = x.act.From ∧
      k = x.act.AssetID) := by
    rintro c ⟨⟨_, h1⟩, h2, _⟩; rw [← h2] at h1; exact hn h1
  have hT : ∀ c : Prop, ¬ ((c ∧ tracked env x.act.To = true) ∧ n = x.act.To ∧
      k = x.act.AssetID) := by
    rintro c ⟨⟨_, h1⟩, h2, _⟩; rw [← h2] at h1; exact hn h1
  have hG : ¬ (tracked env x.act.From = true ∧ n = x.act.From ∧ k = x.tx.GasAssetID) := by
    rintro ⟨h1, h2, _⟩; rw [← h2] at h1; exact hn h1
  unfold applyStep
  by_cases hs : x.res.Status = env.ReceiptStatusSuccessful
  · simp only [hs, if_true, delta_ite, hF, hT, hG, if_false, add_zero]
  · simp only [hs, if_false, delta_ite, hG, add_zero]

theorem delta_untracked_revertStep (env : Env) (x : Step) (m : BalanceMap) (n : String)
    (k : Nat) (hn : ¬ tracked env n = true) :
    delta (revertStep env x m) n k = delta m n k := by
  have hF : ∀ c : Prop, ¬ ((c ∧ tracked env x.act.From = true) ∧ n = x.act.From ∧
      k = x.act.AssetID) := by
    rintro c ⟨⟨_, h1⟩, h2, _⟩; rw [← h2] at h1; exact hn h1
  have hT : ∀ c : Prop, ¬ ((c ∧ tracked env x.act.To = true) ∧ n = x.act.To ∧
      k = x.act.AssetID) := by
    rintro c ⟨⟨_, h1⟩, h2, _⟩; rw [← h2] at h1; exact hn h1
  unfold revertStep
  by_cases hs : x.res.Status = env.ReceiptStatusSuccessful
  · simp only [hs, if_true, delta_ite, hF, hT, if_false, add_zero]
  · simp only [hs, if_false]

/-- Map folded by `analysisBalance` from a list of steps: each tracked key holds amounts
received minus amounts sent minus fees charged. -/
theorem delta_foldl_applyStep (env : Env) (n : String) (k : Nat) (hn : tracked env n = true)
    (l : List Step) :
    ∀ m, delta (l.foldl (fun m x => applyStep env x m) m) n k =
      delta m n k + creditedIn env l n k - debitedIn env l n k - feesChargedIn l n k := by
  induction l with
  | nil => intro m; simp [creditedIn, debitedIn, feesChargedIn]
  | cons x t ih =>
    intro m
    rw [List.foldl_cons, ih, delta_applyStep env x m n k hn, creditedIn_cons, debitedIn_cons,
      feesChargedIn_cons]
    ring

/-- Map folded by `rollback` from a list of steps: each tracked key holds amounts sent minus
amounts received. -/
theorem delta_foldl_revertStep (env : Env) (n : String) (k : Nat) (hn : tracked env n = true)
    (l : List Step) :
    ∀ m, delta (l.foldl (fun m x => revertStep env x m) m) n k =
      delta m n k - creditedIn env l n k + debitedIn env l n k := by
  induction l with
  | nil => intro m; simp [creditedIn, debitedIn]
  | cons x t ih =>
    intro m
    rw [List.foldl_cons, ih, delta_revertStep env x m n k hn, creditedIn_cons, debitedIn_cons]
    ring

theorem delta_foldl_untracked (f : Step → BalanceMap → BalanceMap) (n : String)
    (k : Nat) (hf : ∀ x m, delta (f x m) n k = delta m n k) (l : List Step) :
    ∀ m, delta (l.foldl (fun m x => f x m) m) n k = delta m n k := by
  induction l with
  | nil => intro m; rfl
  | cons x t ih => intro m; rw [List.foldl_cons, ih, hf]

theorem delta_nil (n : String) (k : Nat) : delta ([] : BalanceMap) n k = 0 := rfl

end BalanceTask

namespace BalanceTask

/-! ## Rows under the final loop and under fee credits -/

theorem balanceOf_eq (s : Store) (n : String) (k : Nat) :
    balanceOf s n k = rowBalance (s n k) := by
  unfold balanceOf rowBalance
  cases s n k <;> rfl

theorem rowBalance_entryEffect (h ut : Nat) (v : Int) (r : Option Row)
    (hv : v < 0 → r.isSome = true ∧ -v ≤ rowBalance r) :
    rowBalance (entryEffect h ut v r) = rowBalance r + v := by
  unfold entryEffect
  by_cases h1 : v > 0
  · cases r <;> simp [h1, rowBalance]
  · by_cases h2 : v < 0
    · obtain ⟨hsome, hle⟩ := hv h2
      cases r with
      | none => simp at hsome
      | some row =>
        simp only [rowBalance] at hle
        have habs : (v.natAbs : Int) = -v := by omega
        have hnot : ¬ row.balance - (v.natAbs : Int) < 0 := by omega
        simp only [h1, h2, if_false, if_true, hnot, rowBalance]
        omega
    · have : v = 0 := by omega
      subst this
      simp

theorem isSome_entryEffect (h ut : Nat) (v : Int) (r : Option Row) (hr : r.isSome = true) :
    (entryEffect h ut v r).isSome = true := by
  unfold entryEffect
  cases r with
  | none => simp at hr
  | some row =>
    by_cases h1 : v > 0
    · simp only [h1, if_true, Option.isSome_some]
    · by_cases h2 : v < 0
      · by_cases hb : row.balance - (v.natAbs : Int) < 0
        · simp only [h1, h2, hb, if_true, if_false, Option.isSome_some]
        · simp only [h1, h2, hb, if_true, if_false, Option.isSome_some]
      · simp only [h1, h2, if_false, Option.isSome_some]

theorem isSome_entryEffect_of_pos (h ut : Nat) (v : Int) (r : Option Row) (hv : 0 < v) :
    (entryEffect h ut v r).isSome = true := by
  unfold entryEffect
  cases r <;> simp [hv]

theorem nonneg_entryEffect (h ut : Nat) (v : Int) (r : Option Row)
    (hr : ∀ row, r = some row → 0 ≤ row.balance) :
    ∀ row, entryEffect h ut v r = some row → 0 ≤ row.balance := by
  intro row hrow
  unfold entryEffect at hrow
  by_cases h1 : v > 0
  · cases r with
    | none =>
      simp [h1] at hrow
      rw [← hrow]; exact le_of_lt h1
    | some r0 =>
      simp [h1] at hrow
      have := hr r0 rfl
      rw [← hrow]; simp only; omega
  · by_cases h2 : v < 0
    · cases r with
      | none => simp [h1, h2] at hrow
      | some r0 =>
        by_cases hb : r0.balance - (v.natAbs : Int) < 0
        · simp only [h1, h2, if_false, if_true, hb, Option.some.injEq] at hrow
          rw [← hrow]; exact hr r0 rfl
        · simp only [h1, h2, if_false, if_true, hb, Option.some.injEq] at hrow
          rw [← hrow]; simp only; omega
    · simp only [h1, h2, if_false] at hrow
      exact hr row hrow

theorem creditFee_apply (env : Env) (h ut : Nat) (x : Step) (s : Store) (n : String)
    (k : Nat) :
    creditFee env h ut x s n k =
      if tracked env x.act.From = true ∧ n = x.act.From ∧ k = x.tx.GasAssetID then
        some ⟨rowBalance (s n k) + feeOf x.tx x.res, h, ut⟩
      else s n k := by
  unfold creditFee
  by_cases ht : tracked env x.act.From = true
  · by_cases hk : n = x.act.From ∧ k = x.tx.GasAssetID
    · obtain ⟨h1, h2⟩ := hk
      subst h1; subst h2
      simp [ht, Store.set, balanceOf_eq]
    · simp only [ht, if_true, Store.set, hk, if_false, true_and]
  · simp only [ht, if_false, false_and, Bool.false_eq_true]

theorem rowBalance_creditFee (env : Env) (h ut : Nat) (x : Step) (s : Store) (n : String)
    (k : Nat) (hn : tracked env n = true) :
    rowBalance (creditFee env h ut x s n k) = rowBalance (s n k) + stepFee x n k := by
  have hterm := fee_term env x n k hn
  rw [creditFee_apply]
  by_cases hc : tracked env x.act.From = true ∧ n = x.act.From ∧ k = x.tx.GasAssetID
  · simp only [hc, and_self, if_true] at hterm ⊢
    simp only [rowBalance]
    omega
  · simp only [hc, if_false] at hterm ⊢
    omega

theorem creditFee_untracked (env : Env) (h ut : Nat) (x : Step) (s : Store) (n : String)
    (k : Nat) (hn : ¬ tracked env n = true) : creditFee env h ut x s n k = s n k := by
  rw [creditFee_apply]
  have : ¬ (tracked env x.act.From = true ∧ n = x.act.From ∧ k = x.tx.GasAssetID) := by
    rintro ⟨h1, h2, _⟩; rw [← h2] at h1; exact hn h1
  simp only [this, if_false]

theorem isSome_creditFee (env : Env) (h ut : Nat) (x : Step) (s : Store) (n : String)
    (k : Nat) (hs : (s n k).isSome = true) : (creditFee env h ut x s n k).isSome = true := by
  rw [creditFee_apply]
  split_ifs
  · rfl
  · exact hs

theorem isSome_creditFee_of_fee (env : Env) (h ut : Nat) (x : Step) (s : Store) (n : String)
    (k : Nat) (hn : tracked env n = true) (hfee : stepFee x n k ≠ 0) :
    (creditFee env h ut x s n k).isSome = true := by
  rw [creditFee_apply]
  unfold stepFee at hfee
  by_cases hc : x.act.From = n ∧ x.tx.GasAssetID = k
  · obtain ⟨h1, h2⟩ := hc
    subst h1; subst h2
    simp [hn]
  · simp [hc] at hfee

theorem rowBalance_foldl_creditFee (env : Env) (h ut : Nat) (n : String) (k : Nat)
    (hn : tracked env n = true) (l : List Step) :
    ∀ s : Store, rowBalance ((l.foldl (fun s x => creditFee env h ut x s) s) n k) =
      rowBalance (s n k) + feesChargedIn l n k := by
  induction l with
  | nil => intro s; simp [feesChargedIn]
  | cons x t ih =>
    intro s
    rw [List.foldl_cons, ih, rowBalance_creditFee env h ut x s n k hn, feesChargedIn_cons]
    ring

theorem foldl_creditFee_untracked (env : Env) (h ut : Nat) (n : String) (k : Nat)
    (hn : ¬ tracked env n = true) (l : List Step) :
    ∀ s : Store, (l.foldl (fun s x => creditFee env h ut x s) s) n k = s n k := by
  induction l with
  | nil => intro s; rfl
  | cons x t ih => intro s; rw [List.foldl_cons, ih, creditFee_untracked env h ut x s n k hn]

theorem isSome_foldl_creditFee (env : Env) (h ut : Nat) (n : String) (k : Nat)
    (l : List Step) :
    ∀ s : Store, (s n k).isSome = true →
      ((l.foldl (fun s x => creditFee env h ut x s) s) n k).isSome = true := by
  induction l with
  | nil => intro s hs; exact hs
  | cons x t ih =>
    intro s hs
    rw [List.foldl_cons]
    exact ih _ (isSome_creditFee env h ut x s n k hs)

theorem isSome_foldl_creditFee_of_fee (env : Env) (h ut : Nat) (n : String) (k : Nat)
    (hn : tracked env n = true) (l : List Step) :
    ∀ s : Store, feesChargedIn l n k ≠ 0 →
      ((l.foldl (fun s x => creditFee env h ut x s) s) n k).isSome = true := by
  induction l with
  | nil => intro s hf; simp [feesChargedIn] at hf
  | cons x t ih =>
    intro s hf
    rw [List.foldl_cons]
    by_cases hx : stepFee x n k = 0
    · rw [feesChargedIn_cons, hx, zero_add] at hf
      exact ih _ hf
    · exact isSome_foldl_creditFee env h ut n k t _
        (isSome_creditFee_of_fee env h ut x s n k hn hx)

end BalanceTask

namespace BalanceTask

/-! ## Apply and revert, key by key -/

theorem mem_stepsOf_tx (txs : List Tx) (receipts : List Receipt) (x : Step)
    (hx : x ∈ stepsOf txs receipts) : x.tx ∈ txs := by
  unfold stepsOf at hx
  rw [List.mem_flatMap] at hx
  obtain ⟨p, hp, hxp⟩ := hx
  rw [List.mem_map] at hxp
  obtain ⟨q, _, rfl⟩ := hxp
  obtain ⟨p1, p2⟩ := p
  exact (List.of_mem_zip hp).1

theorem feeOf_exact (tx : Tx) (ar : ActionResult) (h0 : 0 ≤ tx.GasPrice)
    (h1 : tx.GasPrice < twoPow64) : feeOf tx ar = (ar.GasUsed : Int) * tx.GasPrice := by
  unfold feeOf bigUint64
  have habs : (tx.GasPrice.natAbs : Int) = tx.GasPrice := Int.natAbs_of_nonneg h0
  have hlt : tx.GasPrice.natAbs < twoPow64 := by
    have : (tx.GasPrice.natAbs : Int) < (twoPow64 : Int) := by rw [habs]; exact h1
    exact_mod_cast this
  rw [Nat.mod_eq_of_lt hlt, habs]

theorem feesChargedIn_eq_exact (l : List Step)
    (hl : ∀ x ∈ l, 0 ≤ x.tx.GasPrice ∧ x.tx.GasPrice < twoPow64) (n : String) (k : Nat) :
    feesChargedIn l n k = feesExactIn l n k := by
  unfold feesChargedIn feesExactIn
  congr 1
  apply List.map_congr_left
  intro x hx
  have hx' := hl x (List.mem_filter.mp hx).1
  exact feeOf_exact x.tx x.res hx'.1 hx'.2

/-- Row of every key after `analysisBalance` at a height above zero, on a co-indexed block
without internal-action details. -/
theorem analysisBalance_rows (env : Env) (data : BlockAndResult) (s : Store)
    (hh : 0 < data.height) (hd : data.DetailTxs = []) (hwf : WellFormed data) :
    ∃ s', analysisBalance env data s = .ok s' ∧ ∀ n k,
      s' n k = entryEffect data.height data.Block.Head.Time
        (if tracked env n = true then netChange env data n k else 0) (s n k) := by
  refine ⟨_, analysisBalance_eq env data hh hd hwf s, ?_⟩
  intro n k
  have hok : MapOk ((steps data).foldl (fun m x => applyStep env x m) []) :=
    foldl_mapOk (applyStep env) (applyStep_mapOk env) (steps data) [] mapOk_nil
  rw [writeBack_apply _ _ _ hok]
  by_cases hn : tracked env n = true
  · rw [delta_foldl_applyStep env n k hn, delta_nil]
    simp only [hn, if_true, netChange, zero_add]
  · rw [delta_foldl_untracked (applyStep env) n k
      (fun x m => delta_untracked_applyStep env x m n k hn), delta_nil]
    simp only [hn, if_false, Bool.false_eq_true]

/-- Row of every key after `rollback`, on a co-indexed block without internal-action
details: the fees come back first, then the transfers are undone. -/
theorem rollback_rows (env : Env) (data : BlockAndResult) (s : Store)
    (hd : data.DetailTxs = []) (hwf : WellFormed data) :
    ∃ s', rollback env data s = .ok s' ∧ ∀ n k,
      s' n k = entryEffect data.height data.Block.Head.Time
        (if tracked env n = true then
          debitedIn env (steps data) n k - creditedIn env (steps data) n k else 0)
        (((steps data).foldl
          (fun s x => creditFee env data.height data.Block.Head.Time x s) s) n k) := by
  refine ⟨_, rollback_eq env data hd hwf s, ?_⟩
  intro n k
  have hok : MapOk ((steps data).foldl (fun m x => revertStep env x m) []) :=
    foldl_mapOk (revertStep env) (revertStep_mapOk env) (steps data) [] mapOk_nil
  rw [writeBack_apply _ _ _ hok]
  by_cases hn : tracked env n = true
  · rw [delta_foldl_revertStep env n k hn, delta_nil]
    simp only [hn, if_true]
    congr 1
    ring
  · rw [delta_foldl_untracked (revertStep env) n k
      (fun x m => delta_untracked_revertStep env x m n k hn), delta_nil]
    simp only [hn, if_false, Bool.false_eq_true]

/-- The guards on the empty name and on the fee sentinel: at a height above zero, on a
co-indexed block without internal-action details, neither `analysisBalance` nor `rollback`
touches a row of such an account. -/
theorem untracked_rows_kept (env : Env) (data : BlockAndResult) (s : Store)
    (hh : 0 < data.height) (hd : data.DetailTxs = []) (hwf : WellFormed data) (n : String)
    (k : Nat) (hn : ¬ tracked env n = true) :
    rowAfter (analysisBalance env data s) n k = some (s n k) ∧
      rowAfter (rollback env data s) n k = some (s n k) := by
  obtain ⟨s1, h1, hrows1⟩ := analysisBalance_rows env data s hh hd hwf
  obtain ⟨s2, h2, hrows2⟩ := rollback_rows env data s hd hwf
  constructor
  · rw [h1]
    simp only [rowAfter, hrows1 n k, hn, if_false, Bool.false_eq_true, entryEffect_zero]
  · rw [h2]
    simp only [rowAfter, hrows2 n k, hn, if_false, Bool.false_eq_true, entryEffect_zero]
    rw [foldl_creditFee_untracked env _ _ n k hn]

/-- A debit that the store does not cover is skipped by apply and still undone by revert:
`alice` holds 100, the block moves 10000 from her, and after apply and revert she holds
10120. -/
theorem applyThenRevert_uncovered_debit :
    rowAfter (applyThenRevert Scenario.env Scenario.overdraftBlock Scenario.poorStore)
      "alice" 1 = some (some ⟨10120, 1, 7⟩) := by
  decide

/-- Internal logs are applied with the outer action's asset and amount and reverted with the
inner action's: after apply and revert `carol` keeps 100 of asset 1 and `bob` holds 7 of
asset 2. -/
theorem applyThenRevert_internal_logs :
    rowAfter (applyThenRevert Scenario.env Scenario.internalBlock Scenario.aliceStore)
      "carol" 1 = some (some ⟨100, 1, 7⟩) ∧
    rowAfter (applyThenRevert Scenario.env Scenario.internalBlock Scenario.aliceStore)
      "bob" 2 = some (some ⟨7, 1, 7⟩) := by
  constructor <;> decide

end BalanceTask

namespace BalanceTask

/-! ## Non-negative balances are preserved -/

theorem forActions_inv {σ : Type} (P : σ → Prop)
    (body : Nat → Action → ActionResult → σ → Except Err σ)
    (hbody : ∀ j act ar st st', P st → body j act ar st = .ok st' → P st')
    (results : List ActionResult) (acts : List Action) :
    ∀ (j : Nat) (st st' : σ), P st → forActions body results j acts st = .ok st' → P st' := by
  induction acts with
  | nil =>
    intro j st st' hP h
    simp only [forActions, Except.ok.injEq] at h
    rw [← h]; exact hP
  | cons act rest ih =>
    intro j st st' hP h
    unfold forActions at h
    cases hr : results[j]? with
    | none => rw [hr] at h; simp at h
    | some ar =>
      rw [hr] at h
      simp only at h
      cases hb : body j act ar st with
      | error e => rw [hb] at h; simp at h
      | ok st1 =>
        rw [hb] at h
        exact ih (j + 1) st1 st' (hbody j act ar st st1 hP hb) h

theorem forTxs_inv {σ : Type} (P : σ → Prop)
    (body : Nat → Nat → Tx → Action → ActionResult → σ → Except Err σ)
    (hbody : ∀ i j tx act ar st st', P st → body i j tx act ar st = .ok st' → P st')
    (receipts : List Receipt) (txs : List Tx) :
    ∀ (i : Nat) (st st' : σ), P st → forTxs body receipts i txs st = .ok st' → P st' := by
  induction txs with
  | nil =>
    intro i st st' hP h
    simp only [forTxs, Except.ok.injEq] at h
    rw [← h]; exact hP
  | cons tx rest ih =>
    intro i st st' hP h
    unfold forTxs at h
    cases hr : receipts[i]? with
    | none => rw [hr] at h; simp at h
    | some receipt =>
      rw [hr] at h
      simp only at h
      cases hb : forActions (fun j act ar => body i j tx act ar) receipt.ActionResults 0
          tx.RPCActions st with
      | error e => rw [hb] at h; simp at h
      | ok st1 =>
        rw [hb] at h
        exact ih (i + 1) st1 st'
          (forActions_inv P _ (fun j act ar s s' => hbody i j tx act ar s s') _ _ 0 st st1 hP hb)
          h

theorem nonNeg_set (s : Store) (n : String) (k : Nat) (r : Row) (hs : NonNeg s)
    (hr : 0 ≤ r.balance) : NonNeg (s.set n k r) := by
  intro n' k' r' h
  unfold Store.set at h
  split_ifs at h
  · simp only [Option.some.injEq] at h
    rw [← h]; exact hr
  · exact hs n' k' r' h

theorem nonNeg_writeEntry (h ut : Nat) (name : String) (s : Store) (e : Nat × Int)
    (hs : NonNeg s) : NonNeg (writeEntry h ut name s e) := by
  intro n k r hr
  obtain ⟨k0, v⟩ := e
  rw [writeEntry_apply] at hr
  split_ifs at hr
  · exact nonneg_entryEffect h ut v (s name k0) (fun row hrow => hs name k0 row hrow) r hr
  · exact hs n k r hr

theorem nonNeg_writeBack (h ut : Nat) (m : BalanceMap) :
    ∀ s : Store, NonNeg s → NonNeg (writeBack h ut m s) := by
  unfold writeBack
  induction m with
  | nil => intro s hs; exact hs
  | cons q t ih =>
    intro s hs
    rw [List.foldl_cons]
    apply ih
    generalize q.2 = bs
    induction bs generalizing s with
    | nil => exact hs
    | cons e es ihe =>
      rw [List.foldl_cons]
      exact ihe _ (nonNeg_writeEntry h ut q.1 s e hs)

theorem feeOf_nonneg (tx : Tx) (ar : ActionResult) : 0 ≤ feeOf tx ar := by
  unfold feeOf
  exact mul_nonneg (Int.ofNat_nonneg _) (Int.ofNat_nonneg _)

theorem balanceOf_nonneg (s : Store) (hs : NonNeg s) (n : String) (k : Nat) :
    0 ≤ balanceOf s n k := by
  unfold balanceOf
  cases h : s n k with
  | none => simp
  | some r => exact hs n k r h

theorem applyAction_nonNeg (env : Env) (data : BlockAndResult)
    (hissue : ∀ act obj, env.parsePayload act = .ok obj → 0 ≤ obj.Amount)
    (i j : Nat) (tx : Tx) (act : Action) (ar : ActionResult) (st st' : BalanceMap × Store)
    (hP : NonNeg st.2) (h : applyAction env data i j tx act ar st = .ok st') :
    NonNeg st'.2 := by
  unfold applyAction at h
  simp only at h
  by_cases hs : ar.Status = env.ReceiptStatusSuccessful
  · simp only [hs, if_true] at h
    have hgen : ∀ s1, (if data.height = 0 ∧ act.ActType = env.IssueAsset then
          match env.parsePayload act with
          | .error e => .error e
          | .ok arg =>
            match env.GetAssetInfoByName arg.AssetName with
            | .error e => .error e
            | .ok assetId =>
              InsertAccountBalance st.2 arg.Owner arg.Amount assetId data.height
                data.Block.Head.Time
        else (.ok st.2 : Except Err Store)) = .ok s1 → NonNeg s1 := by
      intro s1 h1
      split_ifs at h1
      · cases hp : env.parsePayload act with
        | error e => rw [hp] at h1; simp at h1
        | ok arg =>
          rw [hp] at h1
          simp only at h1
          cases hg : env.GetAssetInfoByName arg.AssetName with
          | error e => rw [hg] at h1; simp at h1
          | ok assetId =>
            rw [hg] at h1
            simp only at h1
            unfold InsertAccountBalance at h1
            cases hrow : st.2 arg.Owner assetId with
            | some r => rw [hrow] at h1; simp at h1
            | none =>
              rw [hrow] at h1
              simp only [Except.ok.injEq] at h1
              rw [← h1]
              exact nonNeg_set _ _ _ _ hP (hissue act arg hp)
      · simp only [Except.ok.injEq] at h1
        rw [← h1]; exact hP
    split at h
    · simp at h
    · rename_i s1 hs1
      have hn1 := hgen s1 hs1
      by_cases hd : data.DetailTxs.length ≠ 0
      · rw [if_pos hd] at h
        cases hia : internalActionsAt data.DetailTxs i j with
        | error e => rw [hia] at h; simp at h
        | ok ia =>
          rw [hia] at h
          simp only [Except.ok.injEq] at h
          rw [← h]; exact hn1
      · rw [if_neg hd] at h
        simp only [Except.ok.injEq] at h
        rw [← h]; exact hn1
  · simp only [hs, if_false, Except.ok.injEq] at h
    rw [← h]; exact hP

theorem revertAction_nonNeg (env : Env) (data : BlockAndResult)
    (i j : Nat) (tx : Tx) (act : Action) (ar : ActionResult) (st st' : BalanceMap × Store)
    (hP : NonNeg st.2) (h : revertAction env data i j tx act ar st = .ok st') :
    NonNeg st'.2 := by
  unfold revertAction at h
  simp only [addBalance_insert] at h
  have hcred : ∀ s1, (if tracked env act.From = true then
        (.ok (st.2.set act.From tx.GasAssetID
          ⟨balanceOf st.2 act.From tx.GasAssetID + feeOf tx ar, data.height,
            data.Block.Head.Time⟩) : Except Err Store)
      else .ok st.2) = .ok s1 → NonNeg s1 := by
    intro s1 h1
    split_ifs at h1
    · simp only [Except.ok.injEq] at h1
      rw [← h1]
      apply nonNeg_set _ _ _ _ hP
      have := balanceOf_nonneg st.2 hP act.From tx.GasAssetID
      have := feeOf_nonneg tx ar
      simp only
      omega
    · simp only [Except.ok.injEq] at h1
      rw [← h1]; exact hP
  split at h
  · simp at h
  · rename_i s1 hs1
    have hn1 := hcred s1 hs1
    by_cases hs : ar.Status = env.ReceiptStatusSuccessful
    · rw [if_pos hs] at h
      by_cases hd : data.DetailTxs.length ≠ 0
      · rw [if_pos hd] at h
        cases hia : internalActionsAt data.DetailTxs i j with
        | error e => rw [hia] at h; simp at h
        | ok ia =>
          rw [hia] at h
          simp only [Except.ok.injEq] at h
          rw [← h]; exact hn1
      · rw [if_neg hd] at h
        simp only [Except.ok.injEq] at h
        rw [← h]; exact hn1
    · rw [if_neg hs] at h
      simp only [Except.ok.injEq] at h
      rw [← h]; exact hn1

end BalanceTask

namespace Dispatch

/-! ## The start height -/

theorem foldl_min_zero (l : List Nat) : l.foldl min 0 = 0 := by
  induction l with
  | nil => rfl
  | cons x t ih => simp [List.foldl_cons, ih]

theorem foldl_min_le (l : List Nat) :
    ∀ c, l.foldl min c ≤ c ∧ (∀ x ∈ l, l.foldl min c ≤ x) ∧
      (l.foldl min c = c ∨ l.foldl min c ∈ l) := by
  induction l with
  | nil => intro c; simp
  | cons y t ih =>
    intro c
    obtain ⟨h1, h2, h3⟩ := ih (min c y)
    rw [List.foldl_cons]
    refine ⟨le_trans h1 (min_le_left _ _), ?_, ?_⟩
    · intro x hx
      rcases List.mem_cons.mp hx with rfl | hx
      · exact le_trans h1 (min_le_right _ _)
      · exact h2 x hx
    · rcases h3 with h3 | h3
      · rcases le_total c y with hcy | hcy
        · left; rw [h3, min_eq_left hcy]
        · right; rw [h3, min_eq_right hcy]; exact List.mem_cons_self _ _
      · right; exact List.mem_cons_of_mem _ h3

theorem startHeightLoop_false (l : List TaskStatus) :
    ∀ c, startHeightLoop l c false = (l.map TaskStatus.Height).foldl min c := by
  induction l with
  | nil => intro c; rfl
  | cons t rest ih =>
    intro c
    simp only [startHeightLoop, Bool.false_eq_true, if_false, List.map_cons, List.foldl_cons]
    have hmin : (if t.Height < c then t.Height else c) = min c t.Height := by
      rcases lt_or_le t.Height c with h | h
      · rw [if_pos h, min_eq_right (le_of_lt h)]
      · rw [if_neg (not_lt.mpr h), min_eq_left h]
    rw [hmin]
    by_cases h0 : min c t.Height = 0
    · rw [if_pos h0, h0, foldl_min_zero]
    · rw [if_neg h0, ih]

theorem startHeightLoop_true_cons (t : TaskStatus) (rest : List TaskStatus) (c : Nat) :
    startHeightLoop (t :: rest) c true = (rest.map TaskStatus.Height).foldl min t.Height := by
  simp only [startHeightLoop, if_true]
  by_cases h0 : t.Height = 0
  · rw [if_pos h0, h0, foldl_min_zero]
  · rw [if_neg h0, startHeightLoop_false]

/-- The loop returns a height of the map that is below every height of the map. -/
theorem startHeightLoop_spec (l : List TaskStatus) (hl : l ≠ []) :
    (∃ t ∈ l, t.Height = startHeightLoop l 0 true) ∧
      ∀ t ∈ l, startHeightLoop l 0 true ≤ t.Height := by
  cases l with
  | nil => exact absurd rfl hl
  | cons t rest =>
    rw [startHeightLoop_true_cons]
    obtain ⟨h1, h2, h3⟩ := foldl_min_le (rest.map TaskStatus.Height) t.Height
    constructor
    · rcases h3 with h3 | h3
      · exact ⟨t, List.mem_cons_self _ _, h3.symm⟩
      · rw [List.mem_map] at h3
        obtain ⟨u, hu, hue⟩ := h3
        exact ⟨u, List.mem_cons_of_mem _ hu, hue⟩
    · intro u hu
      rcases List.mem_cons.mp hu with rfl | hu
      · exact h1
      · exact h2 u.Height (List.mem_map_of_mem _ hu)

theorem startHeightLoop_perm (l l' : List TaskStatus) (hp : l.Perm l') :
    startHeightLoop l 0 true = startHeightLoop l' 0 true := by
  by_cases hl : l = []
  · subst hl
    rw [List.Perm.nil_eq hp]
  · have hl' : l' ≠ [] := fun h => hl (by subst h; exact List.Perm.eq_nil hp)
    obtain ⟨⟨t, ht, hte⟩, hlow⟩ := startHeightLoop_spec l hl
    obtain ⟨⟨t', ht', hte'⟩, hlow'⟩ := startHeightLoop_spec l' hl'
    apply le_antisymm
    · rw [← hte']; exact hlow t' (hp.mem_iff.mpr ht')
    · rw [← hte]; exact hlow' t (hp.mem_iff.mp ht)

end Dispatch

namespace Dispatch

/-! ## The walk down the reversible cache -/

theorem uint64_of_lt (x : Nat) (h : x < twoPow64) : uint64 x = x := Nat.mod_eq_of_lt h

theorem uint64_pred (x : Nat) (h0 : 0 < x) (h : x < twoPow64) :
    uint64 (x + twoPow64 - 1) = x - 1 := by
  unfold uint64
  have : x + twoPow64 - 1 = (x - 1) + twoPow64 := by omega
  rw [this, Nat.add_mod_right]
  exact Nat.mod_eq_of_lt (by omega)

theorem height_of_get (cache : List BlockOriginal) (h : Nat) (b : BlockOriginal)
    (hb : GetBlockOriginalByHeight cache h = some b) : b.Height = h := by
  unfold GetBlockOriginalByHeight at hb
  have := List.find?_some hb
  simpa using this

theorem get_delete_of_lt (cache : List BlockOriginal) (h h' : Nat) (hlt : h' < h) :
    GetBlockOriginalByHeight (DeleteOverOriginalBlock cache h) h' =
      GetBlockOriginalByHeight cache h' := by
  unfold GetBlockOriginalByHeight DeleteOverOriginalBlock
  induction cache with
  | nil => rfl
  | cons b t ih =>
    by_cases hb : b.Height = h'
    · have hbl : b.Height < h := by omega
      simp [List.filter_cons, hbl, hb, hlt]
    · by_cases hbl : b.Height < h
      · simp [List.filter_cons, hbl, hb, ih]
      · simp [List.filter_cons, hbl, hb, ih]

theorem heightsDown_base (a : Nat) : heightsDown (a + 1) a = [] := by
  simp [heightsDown]

theorem heightsDown_succ (a k : Nat) :
    heightsDown (a + (k + 1) + 1) a = (a + (k + 1)) :: heightsDown (a + k + 1) a := by
  unfold heightsDown
  have h1 : a + (k + 1) + 1 - 1 - a = k + 1 := by omega
  have h2 : a + k + 1 - 1 - a = k := by omega
  rw [h1, h2, List.range'_concat, List.reverse_append]
  simp
  omega

theorem fanOut_cons (c : Nat) (b : BlockAndResult) (bs : List BlockAndResult) :
    fanOut c (b :: bs) = ((List.range c).map fun i => (i, b)) ++ fanOut c bs := by
  simp [fanOut, List.flatMap_cons]

theorem filter_range_pair (c i : Nat) (b : BlockAndResult) (hi : i < c) :
    (((List.range c).map fun j => (j, b)).filter fun p => decide (p.1 = i)) = [(i, b)] := by
  induction c with
  | zero => omega
  | succ c ih =>
    rw [List.range_succ, List.map_append, List.filter_append]
    by_cases hic : i < c
    · rw [ih hic]
      have : ¬ c = i := by omega
      simp [this]
    · have hic' : i = c := by omega
      subst hic'
      have hnone : (((List.range i).map fun j => (j, b)).filter fun p => decide (p.1 = i))
          = [] := by
        rw [List.filter_eq_nil_iff]
        intro p hp
        rw [List.mem_map] at hp
        obtain ⟨j, hj, rfl⟩ := hp
        have := List.mem_range.mp hj
        simp
        omega
      rw [hnone]
      simp

theorem filter_fanOut (c i : Nat) (hi : i < c) (bs : List BlockAndResult) :
    ((fanOut c bs).filter fun p => decide (p.1 = i)).map Prod.snd = bs := by
  induction bs with
  | nil => simp [fanOut]
  | cons b t ih =>
    rw [fanOut_cons, List.filter_append, List.map_append, ih, filter_range_pair c i b hi]
    rfl

/-- The walk: started at height `a + k` below `n` on a state whose cache agrees with `cache0`
up to that height, the loop reverts the cached blocks at `a + k, ..., a + 1` and stops at `a`,
where the cached hash equals the chain hash. -/
theorem rollbackLoop_walk (decodeBytes : List Nat → Except Err BlockAndResult)
    (client : Client) (cache0 : List BlockOriginal) (n a : Nat) (hn : n < twoPow64)
    (chainAt : Nat → BlockAndResult) (dbAt : Nat → BlockOriginal)
    (blockAt : Nat → BlockAndResult)
    (hchain : ∀ h, a ≤ h → h < n → client.GetBlockAndResult (int64 h) = .ok (chainAt h))
    (hdb : ∀ h, a ≤ h → h < n → GetBlockOriginalByHeight cache0 h = some (dbAt h))
    (hdec : ∀ h, a < h → h < n → BlobToBlock decodeBytes (dbAt h) = .ok (blockAt h))
    (hne : ∀ h, a < h → h < n → (dbAt h).BlockHash ≠ (chainAt h).Block.Hash)
    (heq : (dbAt a).BlockHash = (chainAt a).Block.Hash) :
    ∀ (k : Nat) (d0 : Dispatch), a + k < n →
      (∀ h', h' ≤ a + k →
        GetBlockOriginalByHeight d0.cache h' = GetBlockOriginalByHeight cache0 h') →
      ∀ fuel, k + 1 ≤ fuel →
        ∃ d', rollbackLoop decodeBytes client fuel (a + k) d0 = some (.ok d') ∧
          d'.currentBlock = some (chainAt a) ∧ d'.startHeight = a + 1 ∧
          d'.taskCount = d0.taskCount ∧ d'.isRollbackSent = d0.isRollbackSent ∧
          d'.rollbackSent =
            d0.rollbackSent ++ fanOut d0.taskCount ((heightsDown (a + k + 1) a).map blockAt) := by
  intro k
  induction k with
  | zero =>
    intro d0 hlt hagree fuel hfuel
    obtain ⟨f, rfl⟩ : ∃ f, fuel = f + 1 := ⟨fuel - 1, by omega⟩
    have hc := hchain a (le_refl a) (by omega)
    have hd : GetBlockOriginalByHeight d0.cache a = some (dbAt a) := by
      rw [hagree a (by omega)]; exact hdb a (le_refl a) (by omega)
    refine ⟨{ d0 with currentBlock := some (chainAt a), startHeight := uint64 (a + 1) },
      ?_, rfl, uint64_of_lt _ (by omega), rfl, rfl, ?_⟩
    · simp only [Nat.add_zero, rollbackLoop, hc, hd, heq, ne_eq, not_true_eq_false, if_false]
    · simp [heightsDown_base, fanOut]
  | succ k ih =>
    intro d0 hlt hagree fuel hfuel
    obtain ⟨f, rfl⟩ : ∃ f, fuel = f + 1 := ⟨fuel - 1, by omega⟩
    have hc := hchain (a + (k + 1)) (by omega) hlt
    have hd0 := hdb (a + (k + 1)) (by omega) hlt
    have hd : GetBlockOriginalByHeight d0.cache (a + (k + 1)) = some (dbAt (a + (k + 1))) := by
      rw [hagree (a + (k + 1)) (le_refl _)]; exact hd0
    have hheight : (dbAt (a + (k + 1))).Height = a + (k + 1) := height_of_get _ _ _ hd0
    have hdecode := hdec (a + (k + 1)) (by omega) hlt
    have hdiff := hne (a + (k + 1)) (by omega) hlt
    have hpred : uint64 (a + (k + 1) + twoPow64 - 1) = a + k := by
      rw [uint64_pred _ (by omega) (by omega)]; omega
    obtain ⟨d', hrun, hcur, hstart, htc, hsig, hsent⟩ := ih
      { d0 with
        rollbackSent := d0.rollbackSent ++
          (List.range d0.taskCount).map fun i => (i, blockAt (a + (k + 1)))
        cache := DeleteOverOriginalBlock d0.cache (a + (k + 1)) }
      (by omega)
      (by
        intro h' hh'
        simp only
        rw [get_delete_of_lt _ _ _ (by omega)]
        exact hagree h' (by omega))
      f (by omega)
    refine ⟨d', ?_, hcur, hstart, htc, hsig, ?_⟩
    · simp only [rollbackLoop, hc, hd, hdiff, ne_eq, not_false_eq_true, if_true, hdecode,
        hheight, hpred]
      exact hrun
    · rw [hsent, heightsDown_succ, List.map_cons, fanOut_cons, List.append_assoc]

end Dispatch

namespace Dispatch

/-- The rollback procedure from a current block of height `n`: when `a < n` is the first
height, walking down from `n - 1`, at which the cached hash equals the chain hash, the cached
blocks at `n - 1, ..., a + 1` are sent to every task and the dispatcher resumes at `a + 1`. -/
theorem rollback_walk (decodeBytes : List Nat → Except Err BlockAndResult)
    (client : Client) (d : Dispatch) (currentBlock : BlockAndResult) (n a : Nat)
    (hcur : d.currentBlock = some currentBlock) (hheight : currentBlock.height = n)
    (han : a < n)
    (chainAt : Nat → BlockAndResult) (dbAt : Nat → BlockOriginal)
    (blockAt : Nat → BlockAndResult)
    (hchain : ∀ h, a ≤ h → h < n → client.GetBlockAndResult (int64 h) = .ok (chainAt h))
    (hdb : ∀ h, a ≤ h → h < n → GetBlockOriginalByHeight d.cache h = some (dbAt h))
    (hdec : ∀ h, a < h → h < n → BlobToBlock decodeBytes (dbAt h) = .ok (blockAt h))
    (hne : ∀ h, a < h → h < n → (dbAt h).BlockHash ≠ (chainAt h).Block.Hash)
    (heq : (dbAt a).BlockHash = (chainAt a).Block.Hash)
    (fuel : Nat) (hfuel : n - a ≤ fuel) :
    ∃ d', rollback decodeBytes client fuel d = some (.ok d') ∧
      d'.currentBlock = some (chainAt a) ∧ d'.startHeight = a + 1 ∧
      d'.taskCount = d.taskCount ∧
      d'.rollbackSent = d.rollbackSent ++ fanOut d.taskCount ((heightsDown n a).map blockAt) := by
  have hn : n < twoPow64 := by
    rw [← hheight]
    exact Nat.mod_lt _ (by decide)
  have hend : uint64 (currentBlock.height + twoPow64 - 1) = a + (n - 1 - a) := by
    rw [hheight, uint64_pred n (by omega) hn]; omega
  obtain ⟨d', hrun, hc, hs, ht, _, hsent⟩ := rollbackLoop_walk decodeBytes client d.cache n a hn
    chainAt dbAt blockAt hchain hdb hdec hne heq (n - 1 - a)
    { d with isRollbackSent := d.isRollbackSent ++ [true], blockDataChan := [] }
    (by omega) (fun _ _ => rfl) fuel (by omega)
  refine ⟨{ d' with isRollbackSent := d'.isRollbackSent ++ [false] }, ?_, hc, hs, ht, ?_⟩
  · unfold rollback
    simp only [hcur] at hrun
    simp only [hcur, hend, hrun]
  · have : a + (n - 1 - a) + 1 = n := by omega
    rw [this] at hsent
    exact hsent

theorem mem_heightsDown (n a h : Nat) : h ∈ heightsDown n a ↔ a < h ∧ h < n := by
  unfold heightsDown
  rw [List.mem_reverse, List.mem_range'_1]
  omega

theorem heightsDown_decreasing (n a : Nat) :
    (heightsDown n a).Pairwise fun x y => y < x := by
  unfold heightsDown
  rw [List.pairwise_reverse]
  exact List.pairwise_lt_range' _ _

theorem sentTo_append_fanOut (d d' : Dispatch) (bs : List BlockAndResult) (i : Nat)
    (hi : i < d.taskCount) (hsent : d'.rollbackSent = d.rollbackSent ++ fanOut d.taskCount bs) :
    sentTo d' i = sentTo d i ++ bs := by
  unfold sentTo
  rw [hsent, List.filter_append, List.map_append, filter_fanOut _ _ hi]

end Dispatch

namespace BalanceTask

/-! ## Claims about the balance task -/

/-- C3: at a height above zero, on a co-indexed block without internal-action details whose
gas prices are below `2^64`, and on a store in which every tracked key with a negative net
change has a row covering it, `analysisBalance` succeeds and every tracked key ends with its
prior balance (zero when there was no row) plus the amounts received, minus the amounts sent,
minus `gasUsed * gasPrice` of every action it paid for; a key whose net change is zero keeps
its row untouched. -/
theorem analysisBalance_net_effect (env : Env) (data : BlockAndResult) (s : Store)
    (hh : 0 < data.height) (hd : data.DetailTxs = []) (hwf : WellFormed data)
    (hgas : ∀ tx ∈ data.Block.Txs, 0 ≤ tx.GasPrice ∧ tx.GasPrice < twoPow64)
    (hcov : ∀ n k, n ≠ "" → n ≠ env.ChainFeeName →
      credited env data n k - debited env data n k - feesExact data n k < 0 →
      ∃ row, s n k = some row ∧
        -(credited env data n k - debited env data n k - feesExact data n k) ≤ row.balance) :
    ∃ s', analysisBalance env data s = .ok s' ∧ ∀ n k, n ≠ "" → n ≠ env.ChainFeeName →
      balanceOf s' n k =
        balanceOf s n k + credited env data n k - debited env data n k - feesExact data n k ∧
      (credited env data n k - debited env data n k - feesExact data n k = 0 →
        s' n k = s n k) := by
  obtain ⟨s', hs', hrows⟩ := analysisBalance_rows env data s hh hd hwf
  refine ⟨s', hs', ?_⟩
  intro n k hn1 hn2
  have hn : tracked env n = true := (tracked_iff env n).2 ⟨hn1, hn2⟩
  have hfees : feesChargedIn (steps data) n k = feesExact data n k :=
    feesChargedIn_eq_exact (steps data)
      (fun x hx => hgas x.tx (mem_stepsOf_tx _ _ x hx)) n k
  have hnet : netChange env data n k =
      credited env data n k - debited env data n k - feesExact data n k := by
    unfold netChange credited debited
    rw [hfees]
  have hrow' : s' n k = entryEffect data.height data.Block.Head.Time
      (credited env data n k - debited env data n k - feesExact data n k) (s n k) := by
    rw [hrows n k]
    simp only [hn, if_true, hnet]
  constructor
  · rw [balanceOf_eq, hrow', rowBalance_entryEffect, balanceOf_eq]
    · ring
    · intro hneg
      obtain ⟨row, hrow, hle⟩ := hcov n k hn1 hn2 hneg
      rw [hrow]
      exact ⟨rfl, hle⟩
  · intro hzero
    rw [hrow', hzero, entryEffect_zero]

/-- Witness for C3: `alice` holds 1000, sends 100 to `bob` at gas price 10 with 2 gas used;
afterwards `alice` holds 880 and `bob` holds 100. -/
theorem analysisBalance_net_effect_witness :
    ∃ s', analysisBalance Scenario.env Scenario.transferBlock Scenario.aliceStore = .ok s' ∧
      balanceOf s' "alice" 1 = 880 ∧ balanceOf s' "bob" 1 = 100 := by
  have hcredA : credited Scenario.env Scenario.transferBlock "alice" 1 = 0 := by decide
  have hdebA : debited Scenario.env Scenario.transferBlock "alice" 1 = 100 := by decide
  have hfeeA : feesExact Scenario.transferBlock "alice" 1 = 20 := by decide
  have hcredB : credited Scenario.env Scenario.transferBlock "bob" 1 = 100 := by decide
  have hdebB : debited Scenario.env Scenario.transferBlock "bob" 1 = 0 := by decide
  have hfeeB : feesExact Scenario.transferBlock "bob" 1 = 0 := by decide
  obtain ⟨s', hs', hall⟩ := analysisBalance_net_effect Scenario.env Scenario.transferBlock
    Scenario.aliceStore (by decide) rfl (by unfold WellFormed; decide) (by decide)
    (by
      intro n k _ _ hneg
      by_cases hk : n = "alice" ∧ k = 1
      · obtain ⟨rfl, rfl⟩ := hk
        refine ⟨⟨1000, 0, 0⟩, by decide, ?_⟩
        rw [hcredA, hdebA, hfeeA]
        decide
      · exfalso
        have hk' : ¬ ("alice" = n ∧ 1 = k) := fun h => hk ⟨h.1.symm, h.2.symm⟩
        simp [credited, debited, feesExact, creditedIn, debitedIn, feesExactIn, steps, stepsOf,
          Scenario.transferBlock, Scenario.env, List.filter_cons, hk'] at hneg
        split_ifs at hneg <;> simp at hneg)
  refine ⟨s', hs', ?_, ?_⟩
  · rw [(hall "alice" 1 (by decide) (by decide)).1, hcredA, hdebA, hfeeA]
    decide
  · rw [(hall "bob" 1 (by decide) (by decide)).1, hcredB, hdebB, hfeeB]
    decide

end BalanceTask

namespace BalanceTask

theorem nonNeg_aliceStore : NonNeg Scenario.aliceStore := by
  intro n k r hr
  unfold Scenario.aliceStore Store.set Store.empty at hr
  split_ifs at hr
  simp only [Option.some.injEq] at hr
  rw [← hr]; decide

theorem netChange_transferBlock_nonneg (n : String) (k : Nat) (hk : ¬ (n = "alice" ∧ k = 1)) :
    0 ≤ netChange Scenario.env Scenario.transferBlock n k := by
  have hk' : ¬ ("alice" = n ∧ 1 = k) := fun h => hk ⟨h.1.symm, h.2.symm⟩
  simp [netChange, creditedIn, debitedIn, feesChargedIn, steps, stepsOf,
    Scenario.transferBlock, Scenario.env, List.filter_cons, hk']
  split_ifs <;> simp

/-- C1 (as amended): at a height above zero, on a co-indexed block without internal-action
details, and on a store with non-negative balances in which every tracked key with a negative
net change has a row covering it, `analysisBalance` succeeds, `rollback` of the same block on
the resulting store succeeds, and afterwards every key that had a row has a row with the same
balance, while every key that had no row holds a zero balance (its row, if one was created,
is not deleted). -/
theorem apply_then_rollback_restores_balances (env : Env) (data : BlockAndResult) (s : Store)
    (hh : 0 < data.height) (hd : data.DetailTxs = []) (hwf : WellFormed data)
    (hnn : NonNeg s)
    (hcov : ∀ n k, n ≠ "" → n ≠ env.ChainFeeName → netChange env data n k < 0 →
      ∃ row, s n k = some row ∧ -(netChange env data n k) ≤ row.balance) :
    ∃ s1 s2, analysisBalance env data s = .ok s1 ∧ rollback env data s1 = .ok s2 ∧
      ∀ n k, (∀ row, s n k = some row → ∃ row', s2 n k = some row' ∧
          row'.balance = row.balance) ∧
        (s n k = none → balanceOf s2 n k = 0) := by
  obtain ⟨s1, hs1, hrows1⟩ := analysisBalance_rows env data s hh hd hwf
  obtain ⟨s2, hs2, hrows2⟩ := rollback_rows env data s1 hd hwf
  refine ⟨s1, s2, hs1, hs2, ?_⟩
  intro n k
  -- it is enough to compare balances and presence
  suffices hmain : rowBalance (s2 n k) = rowBalance (s n k) ∧
      ((s n k).isSome = true → (s2 n k).isSome = true) by
    obtain ⟨hbal, hsome⟩ := hmain
    constructor
    · intro row hrow
      have h2 := hsome (by rw [hrow]; rfl)
      cases hs2k : s2 n k with
      | none => rw [hs2k] at h2; simp at h2
      | some row' =>
        refine ⟨row', rfl, ?_⟩
        rw [hs2k, hrow] at hbal
        exact hbal
    · intro hnone
      rw [balanceOf_eq, hbal, hnone]
      rfl
  by_cases hn : tracked env n = true
  · obtain ⟨hn1, hn2⟩ := (tracked_iff env n).1 hn
    have hb : 0 ≤ rowBalance (s n k) := by
      cases hsk : s n k with
      | none => simp [rowBalance]
      | some row => exact hnn n k row hsk
    have hcov1 : netChange env data n k < 0 →
        (s n k).isSome = true ∧ -(netChange env data n k) ≤ rowBalance (s n k) := by
      intro hneg
      obtain ⟨row, hrow, hle⟩ := hcov n k hn1 hn2 hneg
      rw [hrow]
      exact ⟨rfl, hle⟩
    have h1 : s1 n k = entryEffect data.height data.Block.Head.Time (netChange env data n k)
        (s n k) := by
      rw [hrows1 n k]; simp only [hn, if_true]
    have hbal1 : rowBalance (s1 n k) = rowBalance (s n k) + netChange env data n k := by
      rw [h1]; exact rowBalance_entryEffect _ _ _ _ hcov1
    have hbalF := rowBalance_foldl_creditFee env data.height data.Block.Head.Time n k hn
      (steps data) s1
    have h2 := hrows2 n k
    simp only [hn, if_true] at h2
    have hnet : netChange env data n k = creditedIn env (steps data) n k -
        debitedIn env (steps data) n k - feesChargedIn (steps data) n k := rfl
    have hsomeF : (s n k).isSome = true →
        (((steps data).foldl (fun s x => creditFee env data.height data.Block.Head.Time x s)
          s1) n k).isSome = true := by
      intro hsome
      apply isSome_foldl_creditFee
      rw [h1]
      exact isSome_entryEffect _ _ _ _ hsome
    have hcov2 : debitedIn env (steps data) n k - creditedIn env (steps data) n k < 0 →
        (((steps data).foldl (fun s x => creditFee env data.height data.Block.Head.Time x s)
          s1) n k).isSome = true ∧
        -(debitedIn env (steps data) n k - creditedIn env (steps data) n k) ≤
          rowBalance (((steps data).foldl
            (fun s x => creditFee env data.height data.Block.Head.Time x s) s1) n k) := by
      intro hneg
      refine ⟨?_, by rw [hbalF, hbal1, hnet]; omega⟩
      by_cases hsome : (s n k).isSome = true
      · exact hsomeF hsome
      · have hnotneg : ¬ netChange env data n k < 0 := fun hlt => hsome (hcov1 hlt).1
        by_cases hpos : 0 < netChange env data n k
        · apply isSome_foldl_creditFee
          rw [h1]
          exact isSome_entryEffect_of_pos _ _ _ _ hpos
        · apply isSome_foldl_creditFee_of_fee env _ _ n k hn
          rw [hnet] at hnotneg hpos
          omega
    constructor
    · rw [h2, rowBalance_entryEffect _ _ _ _ hcov2, hbalF, hbal1, hnet]
      ring
    · intro hsome
      rw [h2]
      exact isSome_entryEffect _ _ _ _ (hsomeF hsome)
  · have h1 : s1 n k = s n k := by
      rw [hrows1 n k]; simp only [hn, if_false, Bool.false_eq_true, entryEffect_zero]
    have h2 : s2 n k = s n k := by
      rw [hrows2 n k]
      simp only [hn, if_false, Bool.false_eq_true, entryEffect_zero]
      rw [foldl_creditFee_untracked env _ _ n k hn, h1]
    rw [h2]
    exact ⟨rfl, fun h => h⟩

/-- Witness for the amended C1: `alice` holds 1000 and sends 100 to `bob`; after apply and
revert `alice` again has a row with 1000 and `bob` holds zero. -/
theorem apply_then_rollback_restores_balances_witness :
    ∃ s1 s2, analysisBalance Scenario.env Scenario.transferBlock Scenario.aliceStore = .ok s1 ∧
      rollback Scenario.env Scenario.transferBlock s1 = .ok s2 ∧
      (∃ row', s2 "alice" 1 = some row' ∧ row'.balance = 1000) ∧ balanceOf s2 "bob" 1 = 0 := by
  obtain ⟨s1, s2, h1, h2, hall⟩ := apply_then_rollback_restores_balances Scenario.env
    Scenario.transferBlock Scenario.aliceStore (by decide) rfl (by unfold WellFormed; decide)
    nonNeg_aliceStore
    (by
      intro n k _ _ hneg
      by_cases hk : n = "alice" ∧ k = 1
      · obtain ⟨rfl, rfl⟩ := hk
        exact ⟨⟨1000, 0, 0⟩, by decide, by decide⟩
      · exact absurd hneg (not_lt.mpr (netChange_transferBlock_nonneg n k hk)))
  exact ⟨s1, s2, h1, h2, (hall "alice" 1).1 ⟨1000, 0, 0⟩ (by decide),
    (hall "bob" 1).2 (by decide)⟩

/-- C1 fails as stated: `bob` has no row before the transfer block is applied, and after
apply and revert of that block `bob` has a row (with balance zero) instead of none. -/
theorem apply_then_rollback_leaves_row :
    ∃ s1 s2, analysisBalance Scenario.env Scenario.transferBlock Scenario.aliceStore = .ok s1 ∧
      rollback Scenario.env Scenario.transferBlock s1 = .ok s2 ∧
      Scenario.aliceStore "bob" 1 = none ∧ s2 "bob" 1 = some ⟨0, 1, 7⟩ := by
  refine ⟨_, _, analysisBalance_eq Scenario.env Scenario.transferBlock (by decide) rfl
    (by unfold WellFormed; decide) Scenario.aliceStore,
    rollback_eq Scenario.env Scenario.transferBlock rfl (by unfold WellFormed; decide) _,
    by decide, by decide⟩

end BalanceTask

namespace BalanceTask

/-- C4 fails as stated: the empty store has no negative balance, and applying a genesis block
whose issue-asset payload carries the amount `-5` inserts a row with balance `-5`. -/
theorem analysisBalance_genesis_negative_row :
    NonNeg Store.empty ∧
      rowAfter (analysisBalance (Scenario.genesisEnv "eve" (-5)) Scenario.genesisBlock
        Store.empty) "eve" 3 = some (some ⟨-5, 0, 0⟩) :=
  ⟨fun _ _ _ h => by simp [Store.empty] at h, by decide⟩

/-- C4 (as amended): when every balance of the store is non-negative and the payload parser
only yields non-negative issue amounts, every balance of the store produced by
`analysisBalance`, and likewise of the store produced by `rollback`, is non-negative. -/
theorem balances_stay_nonNeg (env : Env) (data : BlockAndResult) (s : Store)
    (hs : NonNeg s)
    (hissue : ∀ act obj, env.parsePayload act = .ok obj → 0 ≤ obj.Amount) :
    (∀ s', analysisBalance env data s = .ok s' → NonNeg s') ∧
      (∀ s', rollback env data s = .ok s' → NonNeg s') := by
  constructor
  · intro s' h
    unfold analysisBalance at h
    cases hloop : forTxs (applyAction env data) data.Receipts 0 data.Block.Txs ([], s) with
    | error e => rw [hloop] at h; simp at h
    | ok st =>
      rw [hloop] at h
      simp only [Except.ok.injEq] at h
      rw [← h]
      apply nonNeg_writeBack
      exact forTxs_inv (fun st : BalanceMap × Store => NonNeg st.2) _
        (fun i j tx act ar st st' hP hb =>
          applyAction_nonNeg env data hissue i j tx act ar st st' hP hb)
        _ _ 0 ([], s) st hs hloop
  · intro s' h
    unfold rollback at h
    cases hloop : forTxs (revertAction env data) data.Receipts 0 data.Block.Txs ([], s) with
    | error e => rw [hloop] at h; simp at h
    | ok st =>
      rw [hloop] at h
      simp only [Except.ok.injEq] at h
      rw [← h]
      apply nonNeg_writeBack
      exact forTxs_inv (fun st : BalanceMap × Store => NonNeg st.2) _
        (fun i j tx act ar st st' hP hb =>
          revertAction_nonNeg env data i j tx act ar st st' hP hb)
        _ _ 0 ([], s) st hs hloop

/-- Witness for the amended C4: a genesis block issuing 1000 to `eve` on the store in which
`alice` holds 1000 is applied successfully and leaves only non-negative balances. -/
theorem balances_stay_nonNeg_witness :
    ∃ s', analysisBalance (Scenario.genesisEnv "eve" 1000) Scenario.genesisBlock
        Scenario.aliceStore = .ok s' ∧ NonNeg s' ∧ s' "eve" 3 = some ⟨1000, 0, 0⟩ := by
  have hrun : ∃ s', analysisBalance (Scenario.genesisEnv "eve" 1000) Scenario.genesisBlock
      Scenario.aliceStore = .ok s' ∧ s' "eve" 3 = some ⟨1000, 0, 0⟩ := by
    cases h : analysisBalance (Scenario.genesisEnv "eve" 1000) Scenario.genesisBlock
        Scenario.aliceStore with
    | error e =>
      have : rowAfter (analysisBalance (Scenario.genesisEnv "eve" 1000) Scenario.genesisBlock
        Scenario.aliceStore) "eve" 3 = some (some ⟨1000, 0, 0⟩) := by decide
      rw [h] at this
      simp [rowAfter] at this
    | ok s' =>
      have : rowAfter (analysisBalance (Scenario.genesisEnv "eve" 1000) Scenario.genesisBlock
        Scenario.aliceStore) "eve" 3 = some (some ⟨1000, 0, 0⟩) := by decide
      rw [h] at this
      simp only [rowAfter, Option.some.injEq] at this
      exact ⟨s', rfl, this⟩
  obtain ⟨s', h1, h2⟩ := hrun
  exact ⟨s', h1,
    (balances_stay_nonNeg (Scenario.genesisEnv "eve" 1000) Scenario.genesisBlock
      Scenario.aliceStore nonNeg_aliceStore
      (by
        intro act obj h
        simp only [Scenario.genesisEnv, Except.ok.injEq] at h
        rw [← h]; decide)).1 s' h1, h2⟩

/-- C7 fails as stated: with cursor 1 and a block of height 1 the block is applied and the
cursor afterwards is 2, not the block's height 1. -/
theorem startData_cursor_not_height :
    Scenario.transferBlock.height = 1 ∧
      cursorAfter (startData Scenario.env ⟨1, Scenario.aliceStore⟩ Scenario.transferBlock) =
        some 2 :=
  ⟨by decide, by decide⟩

/-- C7 (as amended): in the forward step with cursor `c` and a block of height `h`, if `h < c`
the block is not applied and the worker is unchanged; otherwise the block is applied and,
after the commit, the table is the one `analysisBalance` produced and the cursor is `c + 1`
(as a `uint64`), which is `h + 1` when the block arrives in order; an error of
`analysisBalance` ends the worker. -/
theorem startData_cursor (env : Env) (b : Worker) (d : BlockAndResult) :
    (d.height < b.startHeight → startData env b d = .ok b) ∧
    (b.startHeight ≤ d.height → ∀ tx, analysisBalance env d b.store = .ok tx →
      startData env b d = .ok ⟨uint64 (b.startHeight + 1), tx⟩) ∧
    (b.startHeight ≤ d.height → ∀ e, analysisBalance env d b.store = .error e →
      startData env b d = .error e) := by
  refine ⟨?_, ?_, ?_⟩
  · intro h
    unfold startData
    rw [if_neg (by omega)]
  · intro h tx htx
    unfold startData Base.init Base.commit
    rw [if_pos (by omega), htx]
  · intro h e he
    unfold startData Base.init
    rw [if_pos (by omega), he]

/-- C2, the code at the failing input: `alice` holds 100 and the block moves 10000 from her.
`subBalance` reports `BalanceNotEnough`, yet `analysisBalance` returns no error: it leaves the
row of `alice` as it was, credits `bob` with 10000, and the worker advances its cursor. -/
theorem analysisBalance_drops_BalanceNotEnough :
    errorOf (subBalance Scenario.poorStore "alice" 1 10020 1 7) = some .BalanceNotEnough ∧
      errorOf (analysisBalance Scenario.env Scenario.overdraftBlock Scenario.poorStore) = none ∧
      rowAfter (analysisBalance Scenario.env Scenario.overdraftBlock Scenario.poorStore)
        "alice" 1 = some (some ⟨100, 0, 0⟩) ∧
      rowAfter (analysisBalance Scenario.env Scenario.overdraftBlock Scenario.poorStore)
        "bob" 1 = some (some ⟨10000, 1, 7⟩) ∧
      cursorAfter (startData Scenario.env ⟨1, Scenario.poorStore⟩ Scenario.overdraftBlock) =
        some 2 :=
  ⟨by decide, by decide, by decide, by decide, by decide⟩

/-- C9, the code at the failing input: with gas price `2^64 + 1` and 2 gas used the exact
product is `2^65 + 2`, but the fee computed is 2; apply debits 2 from `alice` and revert
credits 2 back. -/
theorem feeOf_truncates_gas_price :
    (2 : Int) * Scenario.bigPriceTx.GasPrice = 36893488147419103234 ∧
      feeOf Scenario.bigPriceTx ⟨1, 2⟩ = 2 ∧
      rowAfter (analysisBalance Scenario.env Scenario.bigPriceBlock Scenario.aliceStore)
        "alice" 1 = some (some ⟨998, 1, 7⟩) ∧
      rowAfter (rollback Scenario.env Scenario.bigPriceBlock Scenario.aliceStore)
        "alice" 1 = some (some ⟨1002, 1, 7⟩) :=
  ⟨by decide, by decide, by decide, by decide⟩

/-- C10, the code at the failing input: a genesis block whose issue-asset payload names the
fee sentinel as owner makes `analysisBalance` insert a row for the sentinel account. -/
theorem analysisBalance_genesis_writes_sentinel :
    (Scenario.genesisEnv "fractal.fee" 1000).ChainFeeName = "fractal.fee" ∧
      Store.empty "fractal.fee" 3 = none ∧
      rowAfter (analysisBalance (Scenario.genesisEnv "fractal.fee" 1000) Scenario.genesisBlock
        Store.empty) "fractal.fee" 3 = some (some ⟨1000, 0, 0⟩) :=
  ⟨rfl, rfl, by decide⟩

end BalanceTask

namespace Dispatch

/-! ## Claims about the dispatcher -/

/-- C8: `getTaskStatus` returns the map of task statuses in force (the second read when the
first read has not one row for each configured task, the first read otherwise) together with a
start height that is zero when this map is empty and otherwise is the height of one of its
tasks and at most the height of every one of them, hence the minimum; and the start height is
the same for every order in which the two reads list their entries. -/
theorem getTaskStatus_startHeight_min (firstRead secondRead : GoMap String TaskStatus)
    (tasks : List String) (m : GoMap String TaskStatus)
    (hm : m = if firstRead.length ≠ tasks.length then secondRead else firstRead) :
    (getTaskStatus firstRead secondRead tasks).1 = m ∧
    (m = [] → (getTaskStatus firstRead secondRead tasks).2 = 0) ∧
    (m ≠ [] →
      (∃ p ∈ m, p.2.Height = (getTaskStatus firstRead secondRead tasks).2) ∧
      ∀ p ∈ m, (getTaskStatus firstRead secondRead tasks).2 ≤ p.2.Height) ∧
    (∀ firstRead' secondRead' : GoMap String TaskStatus,
      firstRead'.Perm firstRead → secondRead'.Perm secondRead →
        (getTaskStatus firstRead' secondRead' tasks).2 =
          (getTaskStatus firstRead secondRead tasks).2) := by
  have hfst : (getTaskStatus firstRead secondRead tasks).1 = m := by
    rw [hm]; rfl
  have hsnd : (getTaskStatus firstRead secondRead tasks).2 =
      startHeightLoop (m.map Prod.snd) 0 true := by
    rw [hm]; rfl
  refine ⟨hfst, ?_, ?_, ?_⟩
  · intro hnil
    rw [hsnd, hnil]
    rfl
  · intro hne
    have hne' : m.map Prod.snd ≠ [] := by
      intro h; exact hne (List.map_eq_nil_iff.mp h)
    obtain ⟨⟨t, ht, hte⟩, hlow⟩ := startHeightLoop_spec (m.map Prod.snd) hne'
    rw [hsnd]
    constructor
    · rw [List.mem_map] at ht
      obtain ⟨p, hp, rfl⟩ := ht
      exact ⟨p, hp, hte⟩
    · intro p hp
      exact hlow p.2 (List.mem_map_of_mem _ hp)
  · intro firstRead' secondRead' h1 h2
    have hperm : (if firstRead'.length ≠ tasks.length then secondRead' else firstRead').Perm
        m := by
      rw [hm, h1.length_eq]
      by_cases hl : firstRead.length ≠ tasks.length
      · rw [if_pos hl, if_pos hl]; exact h2
      · rw [if_neg hl, if_neg hl]; exact h1
    rw [hsnd]
    exact startHeightLoop_perm _ _ (hperm.map Prod.snd)

/-- Witness for C8: with rows at heights 5, 3 and 7 for the three configured tasks the map in
force is the first read and the start height is 3, the least of the three, also when the
reads list their entries in reverse order; and when the first read lacks the row of `fee`, the
second read with its zero-valued row is in force and the start height is 0. -/
theorem getTaskStatus_startHeight_min_witness :
    (getTaskStatus Scenario.statusRead Scenario.statusReadFilled Scenario.tasks).1 =
        Scenario.statusRead ∧
      (getTaskStatus Scenario.statusRead Scenario.statusReadFilled Scenario.tasks).2 = 3 ∧
      (∀ p ∈ Scenario.statusRead, 3 ≤ p.2.Height) ∧
      (getTaskStatus Scenario.statusRead.reverse Scenario.statusReadFilled.reverse
        Scenario.tasks).2 = 3 ∧
      getTaskStatus Scenario.statusReadShort Scenario.statusReadFilled Scenario.tasks =
        (Scenario.statusReadFilled, 0) := by
  obtain ⟨h1, _, h3, h4⟩ := getTaskStatus_startHeight_min Scenario.statusRead
    Scenario.statusReadFilled Scenario.tasks Scenario.statusRead (by decide)
  have h2 : (getTaskStatus Scenario.statusRead Scenario.statusReadFilled Scenario.tasks).2 = 3 := by
    decide
  refine ⟨h1, h2, ?_, ?_, by decide⟩
  · intro p hp
    have := (h3 (by decide)).2 p hp
    rw [h2] at this
    exact this
  · rw [h4 _ _ (List.reverse_perm _) (List.reverse_perm _), h2]

end Dispatch

namespace Dispatch

/-- C6: from a current block of height `n` (so `n >= 1` below), with a chain and a cache that
answer at every height from `a` to `n - 1`, where the cached hash equals the chain hash at `a`
and differs at every height between `a` and `n`, and where the cached row of each such height
decodes to a block of that height: with enough fuel `rollback` ends normally, has sent to the
rollback channel of every task exactly the cached blocks of heights `n - 1, n - 2, ..., a + 1`
in this strictly decreasing order, and leaves `currentBlock` equal to the chain block at `a`
and `startHeight` equal to `a + 1`. -/
theorem rollback_reverts_down_to_ancestor (decodeBytes : List Nat → Except Err BlockAndResult)
    (client : Client) (d : Dispatch) (currentBlock : BlockAndResult) (n a : Nat)
    (hcur : d.currentBlock = some currentBlock) (hheight : currentBlock.height = n)
    (han : a < n)
    (chainAt : Nat → BlockAndResult) (dbAt : Nat → BlockOriginal)
    (blockAt : Nat → BlockAndResult)
    (hchain : ∀ h, a ≤ h → h < n → client.GetBlockAndResult (int64 h) = .ok (chainAt h))
    (hdb : ∀ h, a ≤ h → h < n → GetBlockOriginalByHeight d.cache h = some (dbAt h))
    (hdec : ∀ h, a < h → h < n → BlobToBlock decodeBytes (dbAt h) = .ok (blockAt h))
    (hblock : ∀ h, a < h → h < n → (blockAt h).height = h)
    (hne : ∀ h, a < h → h < n → (dbAt h).BlockHash ≠ (chainAt h).Block.Hash)
    (heq : (dbAt a).BlockHash = (chainAt a).Block.Hash)
    (fuel : Nat) (hfuel : n - a ≤ fuel) :
    ∃ d', rollback decodeBytes client fuel d = some (.ok d') ∧
      d'.currentBlock = some (chainAt a) ∧ d'.startHeight = a + 1 ∧
      (∀ i, i < d.taskCount → sentTo d' i = sentTo d i ++ (heightsDown n a).map blockAt) ∧
      ((heightsDown n a).map blockAt).map BlockAndResult.height = heightsDown n a ∧
      (heightsDown n a).Pairwise (fun x y => y < x) := by
  obtain ⟨d', hrun, hc, hs, _, hsent⟩ := rollback_walk decodeBytes client d currentBlock n a
    hcur hheight han chainAt dbAt blockAt hchain hdb hdec hne heq fuel hfuel
  refine ⟨d', hrun, hc, hs, ?_, ?_, heightsDown_decreasing n a⟩
  · intro i hi
    exact sentTo_append_fanOut d d' _ i hi hsent
  · rw [List.map_map]
    conv_rhs => rw [← List.map_id (heightsDown n a)]
    apply List.map_congr_left
    intro h hh
    obtain ⟨h1, h2⟩ := (mem_heightsDown n a h).1 hh
    exact hblock h h1 h2

/-- Witness for C6: the current block has height 6, the cache agrees with the chain at height
3 and differs at 4 and 5; the single task receives the cached blocks of heights 5 and 4 and
the dispatcher resumes at 4. -/
theorem rollback_reverts_down_to_ancestor_witness :
    ∃ d', rollback Scenario.decodeBytes Scenario.client 3 Scenario.dispatch = some (.ok d') ∧
      d'.currentBlock = some (Scenario.emptyBlock 3 "c3" "c2") ∧ d'.startHeight = 4 ∧
      sentTo d' 0 = [Scenario.emptyBlock 5 "stale" "stale",
        Scenario.emptyBlock 4 "stale" "stale"] := by
  obtain ⟨d', hrun, hc, hs, hsent, _, _⟩ := rollback_reverts_down_to_ancestor
    Scenario.decodeBytes Scenario.client Scenario.dispatch (Scenario.emptyBlock 6 "c6" "c5") 6 3
    rfl (by decide) (by decide) Scenario.chainAt Scenario.cacheRow
    (fun h => Scenario.emptyBlock h "stale" "stale")
    (by intro h h1 h2; interval_cases h <;> rfl)
    (by intro h h1 h2; interval_cases h <;> rfl)
    (by intro h h1 h2; interval_cases h <;> rfl)
    (by intro h h1 h2; interval_cases h <;> decide)
    (by intro h h1 h2; interval_cases h <;> decide)
    (by decide) 3 (by decide)
  exact ⟨d', hrun, hc, hs, hsent 0 (by decide)⟩

/-- C5 fails as stated: the chain reports finalized height 5, the cached blocks of heights 5
and 4 differ from the chain, and `rollback` reverts both of them and ends normally with
`startHeight = 4` instead of stopping with a fatal error at height 5. -/
theorem rollback_reverts_at_finalized_height :
    Scenario.client.GetDposIrreversible = .ok 5 ∧
      sentHeights (rollback Scenario.decodeBytes Scenario.client 3 Scenario.dispatch) 0 =
        some [5, 4] ∧
      startHeightAfter (rollback Scenario.decodeBytes Scenario.client 3 Scenario.dispatch) =
        some 4 :=
  ⟨rfl, by decide, by decide⟩

/-- C5 (as amended): the rollback loop does not consult the finalized height.  Whatever height
`hfinal` the chain reports as finalized, when the first height below the current block at
which cached and chain hash agree is `a < hfinal`, `rollback` with enough fuel ends normally
with `startHeight = a + 1`, having sent to every task the cached block of every height between
`a` and `n`, the one at `hfinal` included. -/
theorem rollback_ignores_finalized_height
    (decodeBytes : List Nat → Except Err BlockAndResult)
    (client : Client) (d : Dispatch) (currentBlock : BlockAndResult) (n a hfinal : Nat)
    (hcur : d.currentBlock = some currentBlock) (hheight : currentBlock.height = n)
    (_hfin : client.GetDposIrreversible = .ok hfinal) (hlo : a < hfinal) (hhi : hfinal < n)
    (chainAt : Nat → BlockAndResult) (dbAt : Nat → BlockOriginal)
    (blockAt : Nat → BlockAndResult)
    (hchain : ∀ h, a ≤ h → h < n → client.GetBlockAndResult (int64 h) = .ok (chainAt h))
    (hdb : ∀ h, a ≤ h → h < n → GetBlockOriginalByHeight d.cache h = some (dbAt h))
    (hdec : ∀ h, a < h → h < n → BlobToBlock decodeBytes (dbAt h) = .ok (blockAt h))
    (hne : ∀ h, a < h → h < n → (dbAt h).BlockHash ≠ (chainAt h).Block.Hash)
    (heq : (dbAt a).BlockHash = (chainAt a).Block.Hash)
    (fuel : Nat) (hfuel : n - a ≤ fuel) :
    ∃ d', rollback decodeBytes client fuel d = some (.ok d') ∧ d'.startHeight = a + 1 ∧
      ∀ i, i < d.taskCount → ∀ h, a < h → h < n → blockAt h ∈ sentTo d' i := by
  obtain ⟨d', hrun, _, hs, _, hsent⟩ := rollback_walk decodeBytes client d currentBlock n a
    hcur hheight (by omega) chainAt dbAt blockAt hchain hdb hdec hne heq fuel hfuel
  refine ⟨d', hrun, hs, ?_⟩
  intro i hi h h1 h2
  rw [sentTo_append_fanOut d d' _ i hi hsent]
  exact List.mem_append_right _ (List.mem_map_of_mem _ ((mem_heightsDown n a h).2 ⟨h1, h2⟩))

/-- Witness for the amended C5: finalized height 5, current block of height 6, agreement at
height 3; the cached block of height 5 is sent to the task and the dispatcher resumes at 4. -/
theorem rollback_ignores_finalized_height_witness :
    ∃ d', rollback Scenario.decodeBytes Scenario.client 3 Scenario.dispatch = some (.ok d') ∧
      d'.startHeight = 4 ∧ Scenario.emptyBlock 5 "stale" "stale" ∈ sentTo d' 0 := by
  obtain ⟨d', hrun, hs, hsent⟩ := rollback_ignores_finalized_height
    Scenario.decodeBytes Scenario.client Scenario.dispatch (Scenario.emptyBlock 6 "c6" "c5")
    6 3 5 rfl (by decide) rfl (by decide) (by decide) Scenario.chainAt Scenario.cacheRow
    (fun h => Scenario.emptyBlock h "stale" "stale")
    (by intro h h1 h2; interval_cases h <;> rfl)
    (by intro h h1 h2; interval_cases h <;> rfl)
    (by intro h h1 h2; interval_cases h <;> rfl)
    (by intro h h1 h2; interval_cases h <;> decide)
    (by decide) 3 (by decide)
  exact ⟨d', hrun, hs, hsent 0 (by decide) 5 (by decide) (by decide)⟩

end Dispatch

end Browser
